import Mathlib

/-!
# ElitePreferences: persistence of the light gun preferences

A shallow embedding of `ElitePreferences.cpp` (Version 1.40, FusionElite_ProMicro).

The file has three build variants selected by the preprocessor:
`ELITE_FLASH_ENABLE` (SPI flash through `Adafruit_SPIFlashBase`),
`ELITE_EEPROM_ENABLE` (the Arduino `EEPROM` object) and the fallback without
storage.  Each variant is embedded in a namespace of its own.

Conventions of the embedding:

* a byte (`uint8_t`) is a `Fin 256`;
* `sizeof(ProfileData_t)` comes from `ElitePreferences.h`, which is not part of
  the sources at hand; it is the parameter `entrySize` of every operation;
* the memory `preferences.pProfileData` points to is the byte list
  `profileData` of the record;
* the devices are external collaborators, so the flash operations take the
  device as a record of functions over an arbitrary device state, and every
  operation returns the device state it leaves together with the list of the
  device calls it made.
-/

namespace ElitePreferences

/-- One `uint8_t`. -/
abbrev Byte := Fin 256

/-- Modelled from the spec: `Errors_e` is declared in `ElitePreferences.h`, which is
missing here; the spec lists the vocabulary `Success`, `NoStorage`, `ReadError`,
`NoData`, `WriteError`, `EraseFailed` as small negative codes in the order of the
`ErrorText` table.  This is `Success`. -/
def Error_Success : Int := 0

/-- Modelled from the spec: `Errors_e` of the missing `ElitePreferences.h`,
code `NoStorage` (no backend compiled in). -/
def Error_NoStorage : Int := -1

/-- Modelled from the spec: `Errors_e` of the missing `ElitePreferences.h`,
code `ReadError`. -/
def Error_Read : Int := -2

/-- Modelled from the spec: `Errors_e` of the missing `ElitePreferences.h`,
code `NoData` (header mismatch). -/
def Error_NoData : Int := -3

/-- Modelled from the spec: `Errors_e` of the missing `ElitePreferences.h`,
code `WriteError`. -/
def Error_Write : Int := -4

/-- Modelled from the spec: `Errors_e` of the missing `ElitePreferences.h`,
code `EraseFailed`. -/
def Error_Erase : Int := -5

/-- The bytes of `HeaderId = {'P', 'r', 'o', 'w'}` (line 24), in memory order. -/
def HeaderId : List Byte :=
  ['P', 'r', 'o', 'w'].map (fun c => ⟨c.toNat % 256, Nat.mod_lt _ (by decide)⟩)

/-- The 32-bit word a span of bytes is read as (`HeaderId.u32`, the local `u32`):
the first byte in memory is the least significant one.  Both sides of every
comparison in the source are assembled this same way. -/
def u32OfBytes (b : List Byte) : Nat :=
  b.foldr (fun x acc => x.val + 256 * acc) 0

/-- The record `preferences` (type `Preferences_t` of the missing header), with the
buffer behind `pProfileData` as a list of bytes. -/
structure Preferences_t where
  profile : Byte
  profileData : List Byte
  profileCount : Nat
deriving DecidableEq, Repr

/-- A record is laid out as its count says: the buffer behind `pProfileData` holds
`entrySize * profileCount` bytes, a size a 32-bit length can express. -/
def WellFormed (entrySize : Nat) (p : Preferences_t) : Prop :=
  p.profileData.length = entrySize * p.profileCount ∧ entrySize * p.profileCount < 2 ^ 32

instance (entrySize : Nat) (p : Preferences_t) : Decidable (WellFormed entrySize p) := by
  unfold WellFormed; infer_instance

/-- Memory after a device transferred `data` into a one-byte buffer holding `old`. -/
def storeByte (old : Byte) (data : List Byte) : Byte :=
  match data with
  | [] => old
  | b :: _ => b

/-- Memory after a device transferred `data` into the start of a buffer `buf` that
was passed with length `len`: at most `len` bytes are replaced. -/
def storeBytes (len : Nat) (buf data : List Byte) : List Byte :=
  data.take len ++ buf.drop (data.take len).length

/-! ## Error texts -/

/-- The table `ErrorText[6]` (lines 29 to 36). -/
def ErrorText : List String :=
  ["Success", "No storage memory", "Read error", "No preferences saved",
   "Write error", "Erase failed"]

/-- A value wrapped into the range of a signed machine `int` of `intBits` bits. -/
def wrapInt (intBits : Nat) (x : Int) : Int :=
  (x + 2 ^ (intBits - 1)) % 2 ^ intBits - 2 ^ (intBits - 1)

/-- A signed `int` converted to the unsigned type of the same width, as the
comparison with a `sizeof` quotient does. -/
def toUnsigned (intBits : Nat) (x : Int) : Nat :=
  (x % 2 ^ intBits).toNat

/-- The value of `error` after lines 40 to 45: zero for every non-negative code,
the (wrapping) negation otherwise. -/
def normalizedError (intBits : Nat) (error : Int) : Int :=
  if error ≥ 0 then 0 else wrapInt intBits (-error)

/-- The index `ErrorCodeToString` uses at line 47, or `none` when the guard of
line 46 fails and no lookup happens. -/
def lookupIndex (intBits : Nat) (error : Int) : Option Int :=
  if toUnsigned intBits (normalizedError intBits error) < ErrorText.length then
    some (normalizedError intBits error)
  else none

/-- The function `ElitePreferences::ErrorCodeToString` (lines 38 to 50) for a machine `int` of
`intBits` bits. -/
def ErrorCodeToString (intBits : Nat) (error : Int) : String :=
  match lookupIndex intBits error with
  | some i => ErrorText.getD i.toNat ""
  | none => ""

/-! ## The flash device -/

/-- The three operations of `Adafruit_SPIFlashBase` the store uses, over a device
state `σ`.  `readBuffer dev addr len` yields the bytes the device transferred into
the caller's buffer, and the count it reports is their number; `writeBuffer dev
addr data` yields the count of bytes it reports written; `eraseSector dev n`
yields its success flag. -/
structure Adafruit_SPIFlashBase (σ : Type) where
  readBuffer : σ → Nat → Nat → σ × List Byte
  writeBuffer : σ → Nat → List Byte → σ × Nat
  eraseSector : σ → Nat → σ × Bool

/-- One call to the device, with what was asked and what was reported back. -/
inductive Call where
  | eraseSector (sector : Nat) (ok : Bool)
  | writeBuffer (addr len ret : Nat)
  | readBuffer (addr len ret : Nat)
deriving DecidableEq, Repr

/-- What an operation leaves behind: the returned code, the record, the device
state and the device calls in the order they were made. -/
structure Outcome (σ : Type) where
  code : Int
  preferences : Preferences_t
  dev : σ
  calls : List Call

/-! ## Requests in a call list -/

/-- The call is an `eraseSector`. -/
def Call.isErase : Call → Bool
  | .eraseSector _ _ => true
  | _ => false

/-- The call is a `writeBuffer`. -/
def Call.isWrite : Call → Bool
  | .writeBuffer _ _ _ => true
  | _ => false

/-- The call is a `readBuffer`. -/
def Call.isRead : Call → Bool
  | .readBuffer _ _ _ => true
  | _ => false

namespace ELITE_FLASH_ENABLE

/-- The method `ElitePreferences::Load(Adafruit_SPIFlashBase&)` (lines 52 to 73). -/
def Load {σ : Type} (entrySize : Nat) (flash : Adafruit_SPIFlashBase σ)
    (preferences : Preferences_t) (dev : σ) : Outcome σ :=
  let r1 := flash.readBuffer dev 0 4
  let c1 := [Call.readBuffer 0 4 r1.2.length]
  if r1.2.length ≠ 4 then
    ⟨Error_Read, preferences, r1.1, c1⟩
  else if u32OfBytes r1.2 ≠ u32OfBytes HeaderId then
    ⟨Error_NoData, preferences, r1.1, c1⟩
  else
    let r2 := flash.readBuffer r1.1 4 1
    let c2 := c1 ++ [Call.readBuffer 4 1 r2.2.length]
    let preferences2 := { preferences with profile := storeByte preferences.profile r2.2 }
    if r2.2.length ≠ 1 then
      ⟨Error_Read, preferences2, r2.1, c2⟩
    else
      let length := (entrySize * preferences2.profileCount) % 2 ^ 32
      let r3 := flash.readBuffer r2.1 5 length
      let c3 := c2 ++ [Call.readBuffer 5 length r3.2.length]
      let preferences3 :=
        { preferences2 with profileData := storeBytes length preferences2.profileData r3.2 }
      ⟨if r3.2.length = length then Error_Success else Error_Read, preferences3, r3.1, c3⟩

/-- The method `ElitePreferences::Save(Adafruit_SPIFlashBase&)` (lines 75 to 96). -/
def Save {σ : Type} (entrySize : Nat) (flash : Adafruit_SPIFlashBase σ)
    (preferences : Preferences_t) (dev : σ) : Outcome σ :=
  let e := flash.eraseSector dev 0
  let c0 := [Call.eraseSector 0 e.2]
  if !e.2 then
    ⟨Error_Erase, preferences, e.1, c0⟩
  else
    let w1 := flash.writeBuffer e.1 0 HeaderId
    let c1 := c0 ++ [Call.writeBuffer 0 4 w1.2]
    if w1.2 ≠ 4 then
      ⟨Error_Write, preferences, w1.1, c1⟩
    else
      let w2 := flash.writeBuffer w1.1 4 [preferences.profile]
      let c2 := c1 ++ [Call.writeBuffer 4 1 w2.2]
      if w2.2 ≠ 1 then
        ⟨Error_Write, preferences, w2.1, c2⟩
      else
        let length := (entrySize * preferences.profileCount) % 2 ^ 32
        let w3 := flash.writeBuffer w2.1 5 (preferences.profileData.take length)
        let c3 := c2 ++ [Call.writeBuffer 5 length w3.2]
        ⟨if w3.2 = length then Error_Success else Error_Write, preferences, w3.1, c3⟩

end ELITE_FLASH_ENABLE

/-! ## The EEPROM variant -/

namespace ELITE_EEPROM_ENABLE

/-- The Arduino `EEPROM` object (an external library): a byte array.  A read
outside the array yields zero and a write outside it is dropped; every statement
below that depends on a cell assumes the cell exists. -/
abbrev EEPROMClass := List Byte

/-- The call `EEPROM.read(idx)`. -/
def EEPROM.read (eeprom : EEPROMClass) (idx : Nat) : Byte :=
  eeprom.getD idx 0

/-- The call `EEPROM.write(idx, val)`. -/
def EEPROM.write (eeprom : EEPROMClass) (idx : Nat) (val : Byte) : EEPROMClass :=
  eeprom.set idx val

/-- The call `EEPROM.get(idx, u32)` for a 32-bit word: the four cells from `idx` on. -/
def EEPROM.get (eeprom : EEPROMClass) (idx : Nat) : Nat :=
  u32OfBytes [EEPROM.read eeprom idx, EEPROM.read eeprom (idx + 1),
    EEPROM.read eeprom (idx + 2), EEPROM.read eeprom (idx + 3)]

/-- The call `EEPROM.put(idx, t)`: the bytes of `t` go to the cells from `idx` on. -/
def EEPROM.put (eeprom : EEPROMClass) (idx : Nat) (t : List Byte) : EEPROMClass :=
  match t with
  | [] => eeprom
  | b :: rest => EEPROM.put (EEPROM.write eeprom idx b) (idx + 1) rest

/-- What an operation on the EEPROM leaves behind. -/
structure Outcome where
  code : Int
  preferences : Preferences_t
  eeprom : EEPROMClass

/-- The bound of both loops, `sizeof(ProfileData_t) * preferences.profileCount`,
computed in an unsigned type of `wordBits` bits. -/
def loopBound (wordBits entrySize : Nat) (preferences : Preferences_t) : Nat :=
  (entrySize * preferences.profileCount) % 2 ^ wordBits

/-- The loop of lines 110 to 112 from counter `i` on, with buffer `p`.  The
counter stays below `bound`, so `fuel = bound` iterations always reach the exit. -/
def loadLoop (wordBits bound : Nat) (eeprom : EEPROMClass) :
    Nat → Nat → List Byte → List Byte
  | 0, _, p => p
  | fuel + 1, i, p =>
    if i < bound then
      loadLoop wordBits bound eeprom fuel (i + 1)
        (p.set i (EEPROM.read eeprom ((5 + i) % 2 ^ wordBits)))
    else p

/-- The loop of lines 121 to 123 from counter `i` on, writing from buffer `p`. -/
def saveLoop (wordBits bound : Nat) (p : List Byte) :
    Nat → Nat → EEPROMClass → EEPROMClass
  | 0, _, eeprom => eeprom
  | fuel + 1, i, eeprom =>
    if i < bound then
      saveLoop wordBits bound p fuel (i + 1)
        (EEPROM.write eeprom ((5 + i) % 2 ^ wordBits) (p.getD i 0))
    else eeprom

/-- The method `ElitePreferences::Load()` of the EEPROM variant (lines 100 to 114). -/
def Load (wordBits entrySize : Nat) (preferences : Preferences_t) (eeprom : EEPROMClass) :
    Outcome :=
  if EEPROM.get eeprom 0 ≠ u32OfBytes HeaderId then
    ⟨Error_NoData, preferences, eeprom⟩
  else
    let preferences1 := { preferences with profile := EEPROM.read eeprom 4 }
    let bound := loopBound wordBits entrySize preferences1
    let p := loadLoop wordBits bound eeprom bound 0 preferences1.profileData
    ⟨Error_Success, { preferences1 with profileData := p }, eeprom⟩

/-- The method `ElitePreferences::Save()` of the EEPROM variant (lines 116 to 125). -/
def Save (wordBits entrySize : Nat) (preferences : Preferences_t) (eeprom : EEPROMClass) :
    Outcome :=
  let eeprom1 := EEPROM.put eeprom 0 HeaderId
  let eeprom2 := EEPROM.write eeprom1 4 preferences.profile
  let bound := loopBound wordBits entrySize preferences
  let eeprom3 := saveLoop wordBits bound preferences.profileData bound 0 eeprom2
  ⟨Error_Success, preferences, eeprom3⟩

end ELITE_EEPROM_ENABLE

/-! ## The variant without storage -/

namespace NoStorage

/-- The method `ElitePreferences::Load()` when no backend is compiled in (lines 129 to 132). -/
def Load (preferences : Preferences_t) : Int × Preferences_t :=
  (Error_NoStorage, preferences)

/-- The method `ElitePreferences::Save()` when no backend is compiled in (lines 134 to 137). -/
def Save (preferences : Preferences_t) : Int × Preferences_t :=
  (Error_NoStorage, preferences)

end NoStorage

/-! ## Device models

Concrete devices to run the flash operations on, and the properties of a device
the statements below are relative to. -/

/-- The bytes of a medium `m` from `addr` on, `len` of them. -/
def span (m : Nat → Byte) (addr len : Nat) : List Byte :=
  (List.range len).map (fun i => m (addr + i))

/-- The medium `m` with `data` stored from `addr` on. -/
def overlay (m : Nat → Byte) (addr : Nat) (data : List Byte) : Nat → Byte :=
  fun i => if addr ≤ i ∧ i < addr + data.length then data.getD (i - addr) 0 else m i

/-- The medium of the load scenario: the header "Prow", `profile = 3`, one entry of
16 zero bytes, and `0xFF` in every cell behind it. -/
def scenarioMedium : Nat → Byte :=
  fun i => (([80, 114, 111, 119, 3] : List Byte) ++ List.replicate 16 0).getD i 255

/-- An ideal flash chip: an unbounded medium on which every transfer is complete
and an erase sets the 4096 bytes of the sector to `0xFF`. -/
def ramFlash : Adafruit_SPIFlashBase (Nat → Byte) where
  readBuffer m addr len := (m, span m addr len)
  writeBuffer m addr data := (overlay m addr data, data.length)
  eraseSector m n := (fun i => if 4096 * n ≤ i ∧ i < 4096 * (n + 1) then 255 else m i, true)

/-- The state of a small flash chip whose erase may be broken. -/
structure SmallChip where
  mem : List Byte
  eraseOk : Bool
deriving DecidableEq, Repr

/-- A flash chip with `mem.length` bytes: a transfer stops at the end of the
medium, so a span that reaches past it comes back short, and the erase fails
when `eraseOk` is off. -/
def smallFlash : Adafruit_SPIFlashBase SmallChip where
  readBuffer s addr len := (s, (s.mem.drop addr).take len)
  writeBuffer s addr data :=
    let k := min data.length (s.mem.length - addr)
    ({ s with mem := s.mem.take addr ++ data.take k ++ s.mem.drop (addr + k) }, k)
  eraseSector s _ :=
    if s.eraseOk then ({ s with mem := s.mem.map (fun _ => 255) }, true) else (s, false)

/-- The reads of `flash` show the medium `content` assigns to the device state:
the bytes a read transfers are the first ones of the span asked for, and a read
leaves the medium as it is. -/
def ReadsMedium {σ : Type} (flash : Adafruit_SPIFlashBase σ) (content : σ → Nat → Byte) :
    Prop :=
  ∀ dev addr len,
    (flash.readBuffer dev addr len).2 =
        (span (content dev) addr len).take (flash.readBuffer dev addr len).2.length ∧
      content (flash.readBuffer dev addr len).1 = content dev

/-- The writes of `flash` reach the medium: a write reporting `k` bytes stores the
first `k` bytes of the data and changes no other cell. -/
def WritesMedium {σ : Type} (flash : Adafruit_SPIFlashBase σ) (content : σ → Nat → Byte) :
    Prop :=
  ∀ dev addr data,
    content (flash.writeBuffer dev addr data).1 =
      overlay (content dev) addr (data.take (flash.writeBuffer dev addr data).2)

/-- A faithful flash backend: `eraseSector(0)` succeeds, every `writeBuffer` and
`readBuffer` transfers the full requested length, and the bytes written are the
bytes later read. -/
def Faithful {σ : Type} (flash : Adafruit_SPIFlashBase σ) (content : σ → Nat → Byte) :
    Prop :=
  ReadsMedium flash content ∧ WritesMedium flash content ∧
    (∀ dev, (flash.eraseSector dev 0).2 = true) ∧
    (∀ dev addr data, (flash.writeBuffer dev addr data).2 = data.length) ∧
    (∀ dev addr len, (flash.readBuffer dev addr len).2.length = len)

/-- What a flash cell holding `old` holds after `new` is programmed into it: a write
can only clear bits. -/
def andByte (old new : Byte) : Byte :=
  ⟨old.val &&& new.val, Nat.lt_of_le_of_lt Nat.and_le_left old.isLt⟩

/-- The medium `m` after `data` is programmed from `addr` on, cell by cell. -/
def andOverlay (m : Nat → Byte) (addr : Nat) (data : List Byte) : Nat → Byte :=
  fun i =>
    if addr ≤ i ∧ i < addr + data.length then andByte (m i) (data.getD (i - addr) 0) else m i

/-- A NOR flash chip with sectors of `sectorSize` bytes: a write programs every byte
of its data (the stored byte becomes old AND new), `eraseSector(n)` sets every byte
of sector `n` to `0xFF`, and all calls succeed. -/
def norFlash (sectorSize : Nat) : Adafruit_SPIFlashBase (Nat → Byte) where
  readBuffer m addr len := (m, span m addr len)
  writeBuffer m addr data := (andOverlay m addr data, data.length)
  eraseSector m n :=
    (fun i => if sectorSize * n ≤ i ∧ i < sectorSize * (n + 1) then 255 else m i, true)

/-! ## Machine integers -/

theorem two_pow_split (w : Nat) (hw : 1 ≤ w) : (2 : Int) ^ w = 2 * 2 ^ (w - 1) := by
  obtain ⟨k, rfl⟩ : ∃ k, w = k + 1 := ⟨w - 1, by omega⟩
  simp [pow_succ, mul_comm]

theorem two_pow_pred_ge (w : Nat) (hw : 16 ≤ w) : (32768 : Int) ≤ 2 ^ (w - 1) := by
  have h : (2 : Int) ^ 15 ≤ 2 ^ (w - 1) :=
    pow_le_pow_right₀ (by norm_num) (by omega)
  norm_num at h
  exact h

/-- Negating a code other than the most negative one does not wrap. -/
theorem normalizedError_of_neg (w : Nat) (e : Int) (hw : 1 ≤ w)
    (h1 : -(2 ^ (w - 1)) < e) (h2 : e < 0) : normalizedError w e = -e := by
  have hs := two_pow_split w hw
  unfold normalizedError wrapInt
  rw [if_neg (by omega), hs, Int.emod_eq_of_lt (by omega) (by omega)]
  omega

/-- Negating the most negative code wraps back to it. -/
theorem normalizedError_of_min (w : Nat) (hw : 1 ≤ w) :
    normalizedError w (-(2 ^ (w - 1))) = -(2 ^ (w - 1)) := by
  have hs := two_pow_split w hw
  have hp : (0 : Int) < 2 ^ (w - 1) := by positivity
  unfold normalizedError wrapInt
  rw [if_neg (by omega), hs]
  have : (- -(2 : Int) ^ (w - 1) + 2 ^ (w - 1)) = 2 * 2 ^ (w - 1) := by ring
  rw [this, Int.emod_self]
  omega

theorem toUnsigned_of_nonneg (w : Nat) (x : Int) (h0 : 0 ≤ x) (h1 : x < 2 ^ w) :
    toUnsigned w x = x.toNat := by
  unfold toUnsigned
  rw [Int.emod_eq_of_lt h0 h1]

theorem toUnsigned_of_min (w : Nat) (hw : 1 ≤ w) :
    toUnsigned w (-(2 ^ (w - 1))) = (2 ^ (w - 1) : Int).toNat := by
  have hs := two_pow_split w hw
  have hp : (0 : Int) < 2 ^ (w - 1) := by positivity
  unfold toUnsigned
  rw [hs, ← Int.add_emod_self, Int.emod_eq_of_lt (by omega) (by omega)]
  congr 1
  ring

/-- A negative code above the most negative one is looked up at its magnitude when
that is below six and yields the empty text otherwise. -/
theorem ErrorCodeToString_of_neg (w : Nat) (e : Int) (hw : 16 ≤ w)
    (h1 : -(2 ^ (w - 1)) < e) (h2 : e < 0) :
    ErrorCodeToString w e = if (-e).toNat < 6 then ErrorText.getD (-e).toNat "" else "" := by
  have hs := two_pow_split w (by omega)
  unfold ErrorCodeToString lookupIndex
  rw [normalizedError_of_neg w e (by omega) h1 h2,
    toUnsigned_of_nonneg w (-e) (by omega) (by omega)]
  have hl : ErrorText.length = 6 := rfl
  rw [hl]
  split_ifs <;> rfl

/-- C9: on each of the six declared codes (Success = 0, NoStorage = -1, ReadError = -2,
NoData = -3, WriteError = -4, EraseFailed = -5) `ErrorCodeToString` returns the entry of
`ErrorText` at the code's position, each returned text is non-empty, and the six texts
are pairwise distinct; this holds for every width of `int` the C standard allows. -/
theorem ErrorCodeToString_declared (intBits : Nat) (hw : 16 ≤ intBits) :
    [Error_Success, Error_NoStorage, Error_Read, Error_NoData, Error_Write, Error_Erase]
        = [0, -1, -2, -3, -4, -5] ∧
      [Error_Success, Error_NoStorage, Error_Read, Error_NoData, Error_Write,
          Error_Erase].map (ErrorCodeToString intBits) = ErrorText ∧
      (∀ s ∈ [Error_Success, Error_NoStorage, Error_Read, Error_NoData, Error_Write,
          Error_Erase].map (ErrorCodeToString intBits), s ≠ "") ∧
      ([Error_Success, Error_NoStorage, Error_Read, Error_NoData, Error_Write,
          Error_Erase].map (ErrorCodeToString intBits)).Nodup := by
  have hp := two_pow_pred_ge intBits hw
  have h0 : ErrorCodeToString intBits 0 = "Success" := by
    simp [ErrorCodeToString, lookupIndex, normalizedError, toUnsigned, ErrorText]
  have hmap : [Error_Success, Error_NoStorage, Error_Read, Error_NoData, Error_Write,
      Error_Erase].map (ErrorCodeToString intBits) = ErrorText := by
    simp only [List.map, Error_Success, Error_NoStorage, Error_Read, Error_NoData,
      Error_Write, Error_Erase, h0]
    rw [ErrorCodeToString_of_neg intBits (-1) hw (by omega) (by omega),
      ErrorCodeToString_of_neg intBits (-2) hw (by omega) (by omega),
      ErrorCodeToString_of_neg intBits (-3) hw (by omega) (by omega),
      ErrorCodeToString_of_neg intBits (-4) hw (by omega) (by omega),
      ErrorCodeToString_of_neg intBits (-5) hw (by omega) (by omega)]
    rfl
  refine ⟨rfl, hmap, ?_, ?_⟩
  · rw [hmap]; decide
  · rw [hmap]; decide

/-- The six declared codes on a 32-bit `int`. -/
theorem ErrorCodeToString_declared_witness :
    16 ≤ 32 ∧
      [Error_Success, Error_NoStorage, Error_Read, Error_NoData, Error_Write,
          Error_Erase].map (ErrorCodeToString 32) = ErrorText :=
  ⟨by decide, (ErrorCodeToString_declared 32 (by decide)).2.1⟩

/-- C10, as stated, fails: the code 6 has magnitude beyond the table and is answered
with the text of `Success`, not with the empty text. -/
theorem ErrorCodeToString_six_not_empty :
    (6 : Int).natAbs ≥ 6 ∧ ErrorCodeToString 32 6 = "Success" ∧ ErrorCodeToString 32 6 ≠ "" := by
  decide

/-- C10, amended: every negative machine code of magnitude six or more, the most
negative one included, is answered with the empty text. -/
theorem ErrorCodeToString_beyond_table (intBits : Nat) (error : Int) (hw : 16 ≤ intBits)
    (hmin : -(2 ^ (intBits - 1)) ≤ error) (hneg : error ≤ -6) :
    ErrorCodeToString intBits error = "" := by
  have hp := two_pow_pred_ge intBits hw
  rcases eq_or_lt_of_le hmin with h | h
  · rw [← h]
    unfold ErrorCodeToString lookupIndex
    rw [normalizedError_of_min intBits (by omega), toUnsigned_of_min intBits (by omega)]
    have hl : ErrorText.length = 6 := rfl
    rw [hl, if_neg (by omega)]
  · rw [ErrorCodeToString_of_neg intBits error hw h (by omega), if_neg (by omega)]

/-- The amended C10 at the code -6 and at the most negative 32-bit code. -/
theorem ErrorCodeToString_beyond_table_witness :
    ErrorCodeToString 32 (-6) = "" ∧ ErrorCodeToString 32 (-2147483648) = "" :=
  ⟨ErrorCodeToString_beyond_table 32 (-6) (by decide) (by decide) (by decide),
   ErrorCodeToString_beyond_table 32 (-2147483648) (by decide) (by decide) (by decide)⟩

/-! ## Header word -/

theorem HeaderId_bytes : HeaderId = [80, 114, 111, 119] := by decide

/-- Two four-byte spans read as the same word are the same bytes. -/
theorem eq_HeaderId_of_u32 (l : List Byte) (hl : l.length = 4)
    (h : u32OfBytes l = u32OfBytes HeaderId) : l = HeaderId := by
  match l, hl with
  | [a, b, c, d], _ =>
    rw [HeaderId_bytes] at h ⊢
    simp only [u32OfBytes, List.foldr] at h
    have ha := a.isLt
    have hb := b.isLt
    have hc := c.isLt
    have hd := d.isLt
    have h80 : ((80 : Byte) : Nat) = 80 := rfl
    have h114 : ((114 : Byte) : Nat) = 114 := rfl
    have h111 : ((111 : Byte) : Nat) = 111 := rfl
    have h119 : ((119 : Byte) : Nat) = 119 := rfl
    rw [h80, h114, h111, h119] at h
    have e1 : a = 80 := Fin.ext (by rw [h80]; omega)
    have e2 : b = 114 := Fin.ext (by rw [h114]; omega)
    have e3 : c = 111 := Fin.ext (by rw [h111]; omega)
    have e4 : d = 119 := Fin.ext (by rw [h119]; omega)
    rw [e1, e2, e3, e4]

theorem u32_ne_of_ne_HeaderId (l : List Byte) (hl : l.length = 4) (h : l ≠ HeaderId) :
    u32OfBytes l ≠ u32OfBytes HeaderId :=
  fun he => h (eq_HeaderId_of_u32 l hl he)

namespace ELITE_FLASH_ENABLE

/-- C6: whatever the device does, the calls of the flash `Save` start with
`eraseSector(0)`, no other call of the list is an erase, and when that erase reports
failure `Save` returns `EraseFailed` and the list holds no write. -/
theorem Save_erase_first {σ : Type} (entrySize : Nat) (flash : Adafruit_SPIFlashBase σ)
    (preferences : Preferences_t) (dev : σ) :
    (∃ rest, (Save entrySize flash preferences dev).calls
          = Call.eraseSector 0 (flash.eraseSector dev 0).2 :: rest ∧
        rest.filter Call.isErase = []) ∧
      ((Save entrySize flash preferences dev).calls.filter Call.isErase).length = 1 ∧
      ((flash.eraseSector dev 0).2 = false →
        (Save entrySize flash preferences dev).code = Error_Erase ∧
        (Save entrySize flash preferences dev).calls.filter Call.isWrite = []) := by
  unfold Save
  dsimp only
  split_ifs <;> simp_all [Call.isErase, Call.isWrite]

/-- A chip whose erase is broken: `EraseFailed`, one call, no write. -/
theorem Save_erase_first_witness :
    (smallFlash.eraseSector ⟨List.replicate 8 0, false⟩ 0).2 = false ∧
      (Save 2 smallFlash ⟨9, [1, 2, 3, 4], 2⟩ ⟨List.replicate 8 0, false⟩).code = Error_Erase ∧
      (Save 2 smallFlash ⟨9, [1, 2, 3, 4], 2⟩ ⟨List.replicate 8 0, false⟩).calls.filter
        Call.isWrite = [] :=
  ⟨by decide,
   (Save_erase_first 2 smallFlash ⟨9, [1, 2, 3, 4], 2⟩ ⟨List.replicate 8 0, false⟩).2.2
     (by decide)⟩

/-- C7: whatever the device does, if any read in the calls of the flash `Load` reports
fewer bytes than were requested, `Load` returns `ReadError` and that read is the last
call; the reads `Load` issues are, in this order, 4 bytes at offset 0, 1 byte at
offset 4 and the `profileData` length at offset 5. -/
theorem Load_short_read {σ : Type} (entrySize : Nat) (flash : Adafruit_SPIFlashBase σ)
    (preferences : Preferences_t) (dev : σ) (pre post : List Call) (addr len ret : Nat)
    (hcalls : (Load entrySize flash preferences dev).calls
      = pre ++ Call.readBuffer addr len ret :: post)
    (hshort : ret < len) :
    (Load entrySize flash preferences dev).code = Error_Read ∧ post = [] ∧
      (pre = [] ∧ addr = 0 ∧ len = 4 ∨
       pre.length = 1 ∧ addr = 4 ∧ len = 1 ∨
       pre.length = 2 ∧ addr = 5 ∧ len = (entrySize * preferences.profileCount) % 2 ^ 32) := by
  unfold Load at hcalls ⊢
  dsimp only at hcalls ⊢
  have hne : Error_Success ≠ Error_Read := by decide
  split_ifs at hcalls ⊢ with h1 h2 h3 h4 <;>
    rcases pre with _ | ⟨p1, _ | ⟨p2, _ | ⟨p3, pre⟩⟩⟩ <;>
    simp only [List.cons_append, List.nil_append, List.cons.injEq, Call.readBuffer.injEq,
      List.length_cons, List.length_nil, reduceCtorEq, and_false, false_and, and_true,
      true_and, List.nil_eq, List.append_eq_nil, List.length_singleton] at hcalls ⊢ <;>
    (try (obtain ⟨⟨rfl, rfl, rfl⟩, rfl⟩ := hcalls)) <;>
    (try (obtain ⟨-, ⟨rfl, rfl, rfl⟩, rfl⟩ := hcalls)) <;>
    (try (obtain ⟨-, -, ⟨rfl, rfl, rfl⟩, rfl⟩ := hcalls)) <;>
    (try simp only [not_not] at h1) <;>
    (try simp only [not_not] at h3) <;>
    (try simp only [if_neg (Nat.ne_of_lt hshort)]) <;>
    (try omega) <;>
    (try simp)

/-- A chip of eight bytes holding a valid header: the `profileData` read comes back
one byte short, `Load` returns `ReadError`, and the short read is the last call. -/
theorem Load_short_read_witness :
    (Load 4 smallFlash ⟨9, [1, 2, 3, 4], 1⟩ ⟨[80, 114, 111, 119, 3, 0, 0, 0], true⟩).calls
        = [Call.readBuffer 0 4 4, Call.readBuffer 4 1 1] ++ Call.readBuffer 5 4 3 :: [] ∧
      3 < 4 ∧
      (Load 4 smallFlash ⟨9, [1, 2, 3, 4], 1⟩ ⟨[80, 114, 111, 119, 3, 0, 0, 0], true⟩).code
        = Error_Read :=
  ⟨by decide, by decide,
   (Load_short_read 4 smallFlash ⟨9, [1, 2, 3, 4], 1⟩ ⟨[80, 114, 111, 119, 3, 0, 0, 0], true⟩
     [Call.readBuffer 0 4 4, Call.readBuffer 4 1 1] [] 5 4 3 (by decide) (by decide)).1⟩

/-- C8: whatever the device does, if any write in the calls of the flash `Save` reports
fewer bytes than were requested, then the erase had succeeded, `Save` returns
`WriteError` and that write is the last call; the writes `Save` issues are, in this
order, 4 bytes at offset 0, 1 byte at offset 4 and the `profileData` length at
offset 5. -/
theorem Save_short_write {σ : Type} (entrySize : Nat) (flash : Adafruit_SPIFlashBase σ)
    (preferences : Preferences_t) (dev : σ) (pre post : List Call) (addr len ret : Nat)
    (hcalls : (Save entrySize flash preferences dev).calls
      = pre ++ Call.writeBuffer addr len ret :: post)
    (hshort : ret < len) :
    (Save entrySize flash preferences dev).code = Error_Write ∧ post = [] ∧
      (flash.eraseSector dev 0).2 = true ∧
      (pre.length = 1 ∧ addr = 0 ∧ len = 4 ∨
       pre.length = 2 ∧ addr = 4 ∧ len = 1 ∨
       pre.length = 3 ∧ addr = 5 ∧ len = (entrySize * preferences.profileCount) % 2 ^ 32) := by
  unfold Save at hcalls ⊢
  dsimp only at hcalls ⊢
  split_ifs at hcalls ⊢ with h0 h1 h2 h3 <;>
    rcases pre with _ | ⟨p1, _ | ⟨p2, _ | ⟨p3, _ | ⟨p4, pre⟩⟩⟩⟩ <;>
    simp only [List.cons_append, List.nil_append, List.cons.injEq, Call.writeBuffer.injEq,
      List.length_cons, List.length_nil, reduceCtorEq, and_false, false_and, and_true,
      true_and, List.nil_eq, List.append_eq_nil, List.length_singleton] at hcalls ⊢ <;>
    (try (obtain ⟨-, ⟨rfl, rfl, rfl⟩, rfl⟩ := hcalls)) <;>
    (try (obtain ⟨-, -, ⟨rfl, rfl, rfl⟩, rfl⟩ := hcalls)) <;>
    (try (obtain ⟨-, -, -, ⟨rfl, rfl, rfl⟩, rfl⟩ := hcalls)) <;>
    (try simp only [not_not] at h1) <;>
    (try simp only [not_not] at h2) <;>
    (try simp only [if_neg (Nat.ne_of_lt hshort)]) <;>
    (try simp only [Bool.not_eq_true, Bool.not_eq_false, Bool.not_eq_eq_eq_not, Bool.not_true,
      Bool.not_false] at h0) <;>
    (try omega) <;>
    (try simp_all)

/-- A chip of eight bytes and a record of 5 + 4 bytes: the `profileData` write comes
back one byte short, `Save` returns `WriteError`, and the short write is the last
call. -/
theorem Save_short_write_witness :
    (Save 2 smallFlash ⟨9, [1, 2, 3, 4], 2⟩ ⟨List.replicate 8 0, true⟩).calls
        = [Call.eraseSector 0 true, Call.writeBuffer 0 4 4, Call.writeBuffer 4 1 1]
          ++ Call.writeBuffer 5 4 3 :: [] ∧
      3 < 4 ∧
      (Save 2 smallFlash ⟨9, [1, 2, 3, 4], 2⟩ ⟨List.replicate 8 0, true⟩).code = Error_Write :=
  ⟨by decide, by decide,
   (Save_short_write 2 smallFlash ⟨9, [1, 2, 3, 4], 2⟩ ⟨List.replicate 8 0, true⟩
     [Call.eraseSector 0 true, Call.writeBuffer 0 4 4, Call.writeBuffer 4 1 1] [] 5 4 3
     (by decide) (by decide)).1⟩

end ELITE_FLASH_ENABLE

/-! ## Media -/

@[simp] theorem span_length (m : Nat → Byte) (addr len : Nat) : (span m addr len).length = len := by
  simp [span]

theorem span_take_self (m : Nat → Byte) (addr len : Nat) :
    (span m addr len).take len = span m addr len :=
  List.take_of_length_le (by simp)

@[simp] theorem span_one (m : Nat → Byte) (addr : Nat) : span m addr 1 = [m addr] := by
  simp [span, List.range_succ]

theorem storeBytes_full (len : Nat) (buf data : List Byte) (hb : buf.length = len)
    (hd : data.length = len) : storeBytes len buf data = data := by
  unfold storeBytes
  rw [List.take_of_length_le (by omega), List.drop_of_length_le (by omega), List.append_nil]

namespace ELITE_FLASH_ENABLE

/-- On a medium with the header in place, when the three reads are complete, `Load`
succeeds and the record is the medium's: `profile` is byte 4 and `profileData` the
bytes from 5 on. -/
theorem Load_of_medium {σ : Type} (entrySize : Nat) (flash : Adafruit_SPIFlashBase σ)
    (content : σ → Nat → Byte) (preferences : Preferences_t) (dev : σ)
    (hmed : ReadsMedium flash content)
    (hwf : WellFormed entrySize preferences)
    (hhdr : span (content dev) 0 4 = HeaderId)
    (h1 : (flash.readBuffer dev 0 4).2.length = 4)
    (h2 : (flash.readBuffer (flash.readBuffer dev 0 4).1 4 1).2.length = 1)
    (h3 : (flash.readBuffer (flash.readBuffer (flash.readBuffer dev 0 4).1 4 1).1 5
      (entrySize * preferences.profileCount)).2.length = entrySize * preferences.profileCount) :
    (Load entrySize flash preferences dev).code = Error_Success ∧
      (Load entrySize flash preferences dev).preferences
        = ⟨content dev 4, span (content dev) 5 (entrySize * preferences.profileCount),
            preferences.profileCount⟩ ∧
      content (Load entrySize flash preferences dev).dev = content dev := by
  obtain ⟨hlen, hfit⟩ := hwf
  have hmod : (entrySize * preferences.profileCount) % 2 ^ 32
      = entrySize * preferences.profileCount := Nat.mod_eq_of_lt hfit
  obtain ⟨e1, c1⟩ := hmed dev 0 4
  rw [h1, span_take_self, hhdr] at e1
  obtain ⟨e2, c2⟩ := hmed (flash.readBuffer dev 0 4).1 4 1
  rw [h2, span_take_self, c1, span_one] at e2
  obtain ⟨e3, c3⟩ := hmed (flash.readBuffer (flash.readBuffer dev 0 4).1 4 1).1 5
    (entrySize * preferences.profileCount)
  rw [h3, span_take_self, c2, c1] at e3
  unfold Load
  dsimp only
  rw [if_neg (by rw [h1]; simp), if_neg (by rw [e1]; simp), if_neg (by rw [h2]; simp), hmod,
    if_pos h3, e2, e3, c3, c2, c1]
  refine ⟨rfl, ?_, rfl⟩
  rw [storeBytes_full _ _ _ hlen (by simp)]
  rfl

end ELITE_FLASH_ENABLE

theorem span_getElem (m : Nat → Byte) (addr len i : Nat) (h : i < (span m addr len).length) :
    (span m addr len)[i] = m (addr + i) := by
  simp [span]

theorem overlay_inside (m : Nat → Byte) (addr : Nat) (data : List Byte) (i : Nat)
    (h : i < data.length) : overlay m addr data (addr + i) = data[i] := by
  unfold overlay
  rw [if_pos ⟨by omega, by omega⟩, Nat.add_sub_cancel_left, List.getD_eq_getElem _ _ h]

theorem overlay_outside (m : Nat → Byte) (addr : Nat) (data : List Byte) (i : Nat)
    (h : i < addr ∨ addr + data.length ≤ i) : overlay m addr data i = m i := by
  unfold overlay
  rw [if_neg (by omega)]

/-- Reading back the span that was stored. -/
theorem span_overlay_same (m : Nat → Byte) (addr : Nat) (data : List Byte) :
    span (overlay m addr data) addr data.length = data := by
  apply List.ext_getElem (by simp)
  intro i h1 h2
  rw [span_getElem, overlay_inside m addr data i h2]

/-- Reading a span the store did not touch. -/
theorem span_overlay_disjoint (m : Nat → Byte) (addr : Nat) (data : List Byte) (a len : Nat)
    (h : a + len ≤ addr ∨ addr + data.length ≤ a) :
    span (overlay m addr data) a len = span m a len := by
  apply List.ext_getElem (by simp)
  intro i h1 h2
  rw [span_getElem, span_getElem, overlay_outside]
  simp at h1
  omega

namespace ELITE_FLASH_ENABLE

/-- When the erase succeeds and the three writes are complete, `Save` succeeds and
leaves the header, `profile` and `profileData` stored over the erased medium. -/
theorem Save_of_medium {σ : Type} (entrySize : Nat) (flash : Adafruit_SPIFlashBase σ)
    (content : σ → Nat → Byte) (preferences : Preferences_t) (dev : σ)
    (hmed : WritesMedium flash content)
    (hwf : WellFormed entrySize preferences)
    (he : (flash.eraseSector dev 0).2 = true)
    (h1 : (flash.writeBuffer (flash.eraseSector dev 0).1 0 HeaderId).2 = 4)
    (h2 : (flash.writeBuffer (flash.writeBuffer (flash.eraseSector dev 0).1 0 HeaderId).1 4
      [preferences.profile]).2 = 1)
    (h3 : (flash.writeBuffer (flash.writeBuffer (flash.writeBuffer (flash.eraseSector dev 0).1 0
      HeaderId).1 4 [preferences.profile]).1 5 preferences.profileData).2
        = entrySize * preferences.profileCount) :
    (Save entrySize flash preferences dev).code = Error_Success ∧
      (Save entrySize flash preferences dev).preferences = preferences ∧
      content (Save entrySize flash preferences dev).dev
        = overlay (overlay (overlay (content (flash.eraseSector dev 0).1) 0 HeaderId) 4
            [preferences.profile]) 5 preferences.profileData := by
  obtain ⟨hlen, hfit⟩ := hwf
  have hmod : (entrySize * preferences.profileCount) % 2 ^ 32
      = entrySize * preferences.profileCount := Nat.mod_eq_of_lt hfit
  have htake : preferences.profileData.take (entrySize * preferences.profileCount)
      = preferences.profileData := List.take_of_length_le (by omega)
  have c1 := hmed (flash.eraseSector dev 0).1 0 HeaderId
  rw [h1, List.take_of_length_le (by decide)] at c1
  have c2 := hmed (flash.writeBuffer (flash.eraseSector dev 0).1 0 HeaderId).1 4
    [preferences.profile]
  rw [h2, List.take_of_length_le (by simp), c1] at c2
  have c3 := hmed (flash.writeBuffer (flash.writeBuffer (flash.eraseSector dev 0).1 0
    HeaderId).1 4 [preferences.profile]).1 5 preferences.profileData
  rw [h3, htake, c2] at c3
  unfold Save
  dsimp only
  rw [if_neg (by rw [he]; simp), if_neg (by rw [h1]; simp), if_neg (by rw [h2]; simp), hmod,
    htake, if_pos h3]
  exact ⟨rfl, rfl, c3⟩

/-- The three fields of the image `Save_of_medium` describes, read off the medium. -/
theorem image_fields (m : Nat → Byte) (profile : Byte) (data : List Byte) :
    span (overlay (overlay (overlay m 0 HeaderId) 4 [profile]) 5 data) 0 4 = HeaderId ∧
      overlay (overlay (overlay m 0 HeaderId) 4 [profile]) 5 data 4 = profile ∧
      span (overlay (overlay (overlay m 0 HeaderId) 4 [profile]) 5 data) 5 data.length
        = data := by
  refine ⟨?_, ?_, span_overlay_same _ _ _⟩
  · rw [span_overlay_disjoint _ _ _ _ _ (by omega), span_overlay_disjoint _ _ _ _ _ (by simp)]
    exact span_overlay_same m 0 HeaderId
  · rw [overlay_outside _ _ _ _ (by omega)]
    exact overlay_inside (overlay m 0 HeaderId) 4 [profile] 0 (by simp)

end ELITE_FLASH_ENABLE

namespace ELITE_EEPROM_ENABLE

theorem take_succ_set (e : List Byte) (k : Nat) (v : Byte) (h : k < e.length) :
    (e.set k v).take (k + 1) = e.take k ++ [v] := by
  rw [List.set_eq_take_append_cons_drop, if_pos h, List.take_append_eq_append_take,
    List.length_take, Nat.min_eq_left h.le, List.take_take, Nat.min_eq_right (Nat.le_succ k),
    Nat.add_sub_cancel_left, List.take_succ_cons, List.take_zero]

/-- The write loop stores the rest of the buffer behind the cells already written. -/
theorem saveLoop_eq (wordBits bound : Nat) (p : List Byte) (hp : p.length = bound)
    (hw : 5 + bound ≤ 2 ^ wordBits) :
    ∀ (fuel i : Nat) (e : EEPROMClass), i + fuel = bound → 5 + bound ≤ e.length →
      saveLoop wordBits bound p fuel i e = e.take (5 + i) ++ p.drop i ++ e.drop (5 + bound) := by
  intro fuel
  induction fuel with
  | zero =>
    intro i e hi he
    have : i = bound := by omega
    subst this
    rw [saveLoop, List.drop_of_length_le (by omega), List.append_nil, List.take_append_drop]
  | succ fuel ih =>
    intro i e hi he
    have hlt : i < bound := by omega
    rw [saveLoop, if_pos hlt, Nat.mod_eq_of_lt (by omega), EEPROM.write,
      ih (i + 1) _ (by omega) (by rw [List.length_set]; exact he),
      List.drop_set_of_lt _ _ (by omega), show 5 + (i + 1) = 5 + i + 1 from rfl,
      take_succ_set e (5 + i) _ (by omega), List.getD_eq_getElem p 0 (by omega),
      List.drop_eq_getElem_cons (show i < p.length by omega)]
    simp

/-- The read loop fills the rest of the buffer with the cells from `5 + i` on. -/
theorem loadLoop_eq (wordBits bound : Nat) (e : EEPROMClass) (hw : 5 + bound ≤ 2 ^ wordBits) :
    ∀ (fuel i : Nat) (p : List Byte), i + fuel = bound → p.length = bound →
      loadLoop wordBits bound e fuel i p
        = p.take i ++ (List.range' i fuel).map (fun k => EEPROM.read e (5 + k)) := by
  intro fuel
  induction fuel with
  | zero =>
    intro i p hi hp
    rw [loadLoop, List.take_of_length_le (by omega)]
    simp
  | succ fuel ih =>
    intro i p hi hp
    have hlt : i < bound := by omega
    rw [loadLoop, if_pos hlt, Nat.mod_eq_of_lt (by omega),
      ih (i + 1) _ (by omega) (by rw [List.length_set]; exact hp),
      take_succ_set p i _ (by omega), List.range'_succ]
    simp

theorem put_eq (t : List Byte) :
    ∀ (idx : Nat) (e : EEPROMClass), idx + t.length ≤ e.length →
      EEPROM.put e idx t = e.take idx ++ t ++ e.drop (idx + t.length) := by
  induction t with
  | nil => intro idx e _; simp [EEPROM.put]
  | cons b rest ih =>
    intro idx e h
    simp only [List.length_cons] at h
    rw [EEPROM.put, EEPROM.write, ih (idx + 1) _ (by rw [List.length_set]; omega),
      take_succ_set e idx b (by omega), List.drop_set_of_lt _ _ (by omega)]
    simp [Nat.add_assoc, Nat.add_comm 1]

/-- The image the EEPROM `Save` leaves on an array that can hold it. -/
theorem Save_eeprom_eq (wordBits entrySize : Nat) (preferences : Preferences_t)
    (eeprom : EEPROMClass)
    (hlen : preferences.profileData.length = entrySize * preferences.profileCount)
    (hw : 5 + entrySize * preferences.profileCount ≤ 2 ^ wordBits)
    (he : 5 + entrySize * preferences.profileCount ≤ eeprom.length) :
    (Save wordBits entrySize preferences eeprom).eeprom
      = HeaderId ++ [preferences.profile] ++ preferences.profileData
          ++ eeprom.drop (5 + entrySize * preferences.profileCount) := by
  have hb : loopBound wordBits entrySize preferences = entrySize * preferences.profileCount :=
    Nat.mod_eq_of_lt (by omega)
  have h4 : HeaderId.length = 4 := rfl
  unfold Save
  dsimp only
  rw [hb, saveLoop_eq wordBits _ _ hlen hw _ 0 _ (by omega)
    (by rw [EEPROM.write, List.length_set, put_eq _ _ _ (by omega)]; simp; omega)]
  rw [List.drop_zero, EEPROM.write, List.drop_set_of_lt _ _ (by omega),
    show 5 + 0 = 4 + 1 from rfl, take_succ_set _ 4 _ (by
      rw [put_eq _ _ _ (by omega)]; simp; omega), put_eq _ _ _ (by omega)]
  simp only [List.take_zero, List.nil_append, Nat.zero_add, h4]
  rw [List.take_left' h4, List.append_assoc HeaderId, List.drop_append_eq_append_drop,
    List.drop_of_length_le (by omega), h4, List.drop_drop]
  congr 2
  simp
  congr 1
  omega

theorem read_middle (a b c : List Byte) (k : Nat) (h : k < b.length) :
    EEPROM.read (a ++ b ++ c) (a.length + k) = b[k] := by
  unfold EEPROM.read
  rw [List.getD_eq_getElem _ _ (by simp; omega),
    List.getElem_append_left (by simp; omega), List.getElem_append_right (by omega)]
  simp

/-- The EEPROM `Load` on an image of header, profile and data. -/
theorem Load_eeprom_image (wordBits entrySize : Nat) (preferences : Preferences_t)
    (profile : Byte) (data rest : List Byte)
    (hlen : preferences.profileData.length = entrySize * preferences.profileCount)
    (hdata : data.length = entrySize * preferences.profileCount)
    (hw : 5 + entrySize * preferences.profileCount ≤ 2 ^ wordBits) :
    Load wordBits entrySize preferences (HeaderId ++ [profile] ++ data ++ rest)
      = ⟨Error_Success, ⟨profile, data, preferences.profileCount⟩,
          HeaderId ++ [profile] ++ data ++ rest⟩ := by
  have hb : ∀ x, loopBound wordBits entrySize ⟨x, preferences.profileData,
      preferences.profileCount⟩ = entrySize * preferences.profileCount :=
    fun _ => Nat.mod_eq_of_lt (show entrySize * preferences.profileCount < 2 ^ wordBits by omega)
  have hget : EEPROM.get (HeaderId ++ [profile] ++ data ++ rest) 0 = u32OfBytes HeaderId := by
    rw [HeaderId_bytes]; rfl
  have h4 : EEPROM.read (HeaderId ++ [profile] ++ data ++ rest) 4 = profile := by
    rw [HeaderId_bytes]; rfl
  unfold Load
  dsimp only
  rw [if_neg (by rw [hget]; simp), hb, h4,
    loadLoop_eq wordBits _ _ hw _ 0 _ (by omega) hlen]
  congr 2
  rw [List.take_zero, List.nil_append]
  apply List.ext_getElem (by simp [hdata])
  intro k h1 h2
  rw [List.getElem_map, List.getElem_range']
  have := read_middle (HeaderId ++ [profile]) data rest k h2
  simpa [Nat.add_comm] using this

/-- The four cells `EEPROM.get` reads are the first four of an array that has them. -/
theorem get_eq_take (eeprom : EEPROMClass) (h : 4 ≤ eeprom.length) :
    EEPROM.get eeprom 0 = u32OfBytes (eeprom.take 4) := by
  match eeprom, h with
  | a :: b :: c :: d :: rest, _ => rfl

theorem read_replicate_zero (n i : Nat) : EEPROM.read (List.replicate n 0) i = 0 := by
  unfold EEPROM.read
  rw [List.getD_eq_getElem?_getD, List.getElem?_replicate]
  split_ifs <;> rfl

end ELITE_EEPROM_ENABLE

/-! ## The ideal chip -/

theorem ramFlash_reads : ReadsMedium ramFlash (fun m => m) := by
  intro dev addr len
  exact ⟨(List.take_of_length_le (Nat.le_refl _)).symm, rfl⟩

theorem ramFlash_writes : WritesMedium ramFlash (fun m => m) := by
  intro dev addr data
  show overlay dev addr data = overlay dev addr (data.take data.length)
  rw [List.take_of_length_le (Nat.le_refl _)]

theorem ramFlash_faithful : Faithful ramFlash (fun m => m) :=
  ⟨ramFlash_reads, ramFlash_writes, fun _ => rfl, fun _ _ _ => rfl,
    fun dev addr len => span_length dev addr len⟩

namespace ELITE_FLASH_ENABLE

/-- A header mismatch on a complete first read: `NoData`, record untouched. -/
theorem Load_of_mismatch {σ : Type} (entrySize : Nat) (flash : Adafruit_SPIFlashBase σ)
    (preferences : Preferences_t) (dev : σ)
    (h1 : (flash.readBuffer dev 0 4).2.length = 4)
    (hne : (flash.readBuffer dev 0 4).2 ≠ HeaderId) :
    (Load entrySize flash preferences dev).code = Error_NoData ∧
      (Load entrySize flash preferences dev).preferences = preferences := by
  unfold Load
  dsimp only
  rw [if_neg (by rw [h1]; simp), if_pos (u32_ne_of_ne_HeaderId _ h1 hne)]
  exact ⟨rfl, rfl⟩

/-- C1: on every faithful flash backend, for every well-formed record `R`, `Save`
returns `Success`, and a `Load` that follows into a fresh record with the same
`profileCount` returns `Success` and yields `R`: the same `profile` and the same
`profileData`, byte for byte. -/
theorem Save_Load_roundtrip {σ : Type} (entrySize : Nat) (flash : Adafruit_SPIFlashBase σ)
    (content : σ → Nat → Byte) (R Rfresh : Preferences_t) (dev : σ)
    (hf : Faithful flash content)
    (hR : WellFormed entrySize R)
    (hfresh : WellFormed entrySize Rfresh)
    (hcount : Rfresh.profileCount = R.profileCount) :
    (Save entrySize flash R dev).code = Error_Success ∧
      (Load entrySize flash Rfresh (Save entrySize flash R dev).dev).code = Error_Success ∧
      (Load entrySize flash Rfresh (Save entrySize flash R dev).dev).preferences.profile
        = R.profile ∧
      (Load entrySize flash Rfresh (Save entrySize flash R dev).dev).preferences.profileData
        = R.profileData ∧
      (Load entrySize flash Rfresh (Save entrySize flash R dev).dev).preferences = R := by
  obtain ⟨hreads, hwrites, herase, hwfull, hrfull⟩ := hf
  obtain ⟨hs1, -, hs3⟩ := Save_of_medium entrySize flash content R dev hwrites hR (herase dev)
    (hwfull _ _ _) (hwfull _ _ _) (by rw [hwfull]; exact hR.1)
  obtain ⟨f1, f2, f3⟩ := image_fields (content (flash.eraseSector dev 0).1) R.profile
    R.profileData
  rw [← hs3] at f1 f2 f3
  obtain ⟨hl1, hl2, -⟩ := Load_of_medium entrySize flash content Rfresh
    (Save entrySize flash R dev).dev hreads hfresh f1 (hrfull _ _ _) (hrfull _ _ _)
    (hrfull _ _ _)
  rw [f2, hcount, ← hR.1, f3] at hl2
  refine ⟨hs1, hl1, ?_, ?_, hl2⟩ <;> rw [hl2]

/-- A round trip of a record of two entries of two bytes on the ideal chip. -/
theorem Save_Load_roundtrip_witness :
    (Save 2 ramFlash ⟨9, [1, 2, 3, 4], 2⟩ (fun _ => 0)).code = Error_Success ∧
      (Load 2 ramFlash ⟨0, [0, 0, 0, 0], 2⟩
        (Save 2 ramFlash ⟨9, [1, 2, 3, 4], 2⟩ (fun _ => 0)).dev).preferences
        = ⟨9, [1, 2, 3, 4], 2⟩ :=
  have h := Save_Load_roundtrip 2 ramFlash (fun m => m) ⟨9, [1, 2, 3, 4], 2⟩
    ⟨0, [0, 0, 0, 0], 2⟩ (fun _ => 0) ramFlash_faithful (by decide) (by decide) rfl
  ⟨h.1, h.2.2.2.2⟩

/-- C4: on a medium whose bytes `[0,4)` are the header, when the three reads of `Load`
return the full requested length, the flash `Load` returns `Success`, sets `profile`
to medium byte 4 and `profileData` to exactly the medium bytes `[5, 5+N)` with
`N = entrySize * profileCount`, whatever the record held before; it leaves the medium
and `profileCount` as they were. -/
theorem Load_decodes_layout {σ : Type} (entrySize : Nat) (flash : Adafruit_SPIFlashBase σ)
    (content : σ → Nat → Byte) (preferences : Preferences_t) (dev : σ)
    (hmed : ReadsMedium flash content)
    (hwf : WellFormed entrySize preferences)
    (hhdr : span (content dev) 0 4 = HeaderId)
    (h1 : (flash.readBuffer dev 0 4).2.length = 4)
    (h2 : (flash.readBuffer (flash.readBuffer dev 0 4).1 4 1).2.length = 1)
    (h3 : (flash.readBuffer (flash.readBuffer (flash.readBuffer dev 0 4).1 4 1).1 5
      (entrySize * preferences.profileCount)).2.length = entrySize * preferences.profileCount) :
    (Load entrySize flash preferences dev).code = Error_Success ∧
      (Load entrySize flash preferences dev).preferences.profile = content dev 4 ∧
      (Load entrySize flash preferences dev).preferences.profileData
        = span (content dev) 5 (entrySize * preferences.profileCount) ∧
      (∀ i, i < entrySize * preferences.profileCount →
        (Load entrySize flash preferences dev).preferences.profileData[i]?
          = some (content dev (5 + i))) ∧
      (Load entrySize flash preferences dev).preferences.profileCount
        = preferences.profileCount ∧
      content (Load entrySize flash preferences dev).dev = content dev := by
  obtain ⟨hc, hp, hm⟩ := Load_of_medium entrySize flash content preferences dev hmed hwf hhdr
    h1 h2 h3
  refine ⟨hc, by rw [hp], by rw [hp], ?_, by rw [hp], hm⟩
  intro i hi
  rw [hp]
  simp [span, hi]

/-- The scenario of C4: header "Prow", byte 4 = 3, one all-zero entry of 16 bytes and
`profileCount = 1` give `Success`, `profile = 3` and an all-zero entry 0, whatever
the record held. -/
theorem Load_decodes_layout_witness :
    span scenarioMedium 0 4 = HeaderId ∧
      (Load 16 ramFlash ⟨9, List.replicate 16 1, 1⟩ scenarioMedium).code = Error_Success ∧
      (Load 16 ramFlash ⟨9, List.replicate 16 1, 1⟩ scenarioMedium).preferences.profile = 3 ∧
      (Load 16 ramFlash ⟨9, List.replicate 16 1, 1⟩ scenarioMedium).preferences.profileData
        = List.replicate 16 0 :=
  have h := Load_decodes_layout 16 ramFlash (fun m => m) ⟨9, List.replicate 16 1, 1⟩
    scenarioMedium ramFlash_reads (by decide) (by decide) (by decide) (by decide) (by decide)
  ⟨by decide, h.1, h.2.1.trans (by decide), h.2.2.1.trans (by decide)⟩

end ELITE_FLASH_ENABLE

/-- C3: a medium whose first 4 bytes, read in full, are not 'P','r','o','w' makes `Load`
return `NoData` with the record (profile, every byte of `profileData`, count) as it
was.  This holds for the flash `Load` on every backend whose first read shows the
medium, and for the EEPROM `Load`; an all-zero medium is such a medium for both. -/
theorem Load_blank_medium (wordBits entrySize : Nat) (preferences : Preferences_t) :
    (∀ (σ : Type) (flash : Adafruit_SPIFlashBase σ) (content : σ → Nat → Byte) (dev : σ),
        ReadsMedium flash content → (flash.readBuffer dev 0 4).2.length = 4 →
        span (content dev) 0 4 ≠ HeaderId →
        (ELITE_FLASH_ENABLE.Load entrySize flash preferences dev).code = Error_NoData ∧
        (ELITE_FLASH_ENABLE.Load entrySize flash preferences dev).preferences = preferences) ∧
      (∀ (σ : Type) (flash : Adafruit_SPIFlashBase σ) (content : σ → Nat → Byte) (dev : σ),
        ReadsMedium flash content → (flash.readBuffer dev 0 4).2.length = 4 →
        (∀ i, content dev i = 0) →
        (ELITE_FLASH_ENABLE.Load entrySize flash preferences dev).code = Error_NoData ∧
        (ELITE_FLASH_ENABLE.Load entrySize flash preferences dev).preferences = preferences) ∧
      (∀ eeprom : ELITE_EEPROM_ENABLE.EEPROMClass, 4 ≤ eeprom.length →
        eeprom.take 4 ≠ HeaderId →
        (ELITE_EEPROM_ENABLE.Load wordBits entrySize preferences eeprom).code = Error_NoData ∧
        (ELITE_EEPROM_ENABLE.Load wordBits entrySize preferences eeprom).preferences
          = preferences) ∧
      (∀ n : Nat,
        (ELITE_EEPROM_ENABLE.Load wordBits entrySize preferences (List.replicate n 0)).code
          = Error_NoData ∧
        (ELITE_EEPROM_ENABLE.Load wordBits entrySize preferences
          (List.replicate n 0)).preferences = preferences) := by
  have hflash : ∀ (σ : Type) (flash : Adafruit_SPIFlashBase σ) (content : σ → Nat → Byte)
      (dev : σ), ReadsMedium flash content → (flash.readBuffer dev 0 4).2.length = 4 →
      span (content dev) 0 4 ≠ HeaderId →
      (ELITE_FLASH_ENABLE.Load entrySize flash preferences dev).code = Error_NoData ∧
      (ELITE_FLASH_ENABLE.Load entrySize flash preferences dev).preferences = preferences := by
    intro σ flash content dev hmed h1 hne
    apply ELITE_FLASH_ENABLE.Load_of_mismatch entrySize flash preferences dev h1
    obtain ⟨e1, -⟩ := hmed dev 0 4
    rw [h1, span_take_self] at e1
    rw [e1]
    exact hne
  refine ⟨hflash, ?_, ?_, ?_⟩
  · intro σ flash content dev hmed h1 hzero
    apply hflash σ flash content dev hmed h1
    have : span (content dev) 0 4 = [0, 0, 0, 0] := by
      simp [span, hzero, List.range_succ]
    rw [this]
    decide
  · intro eeprom h4 hne
    unfold ELITE_EEPROM_ENABLE.Load
    rw [if_pos]
    · exact ⟨rfl, rfl⟩
    · rw [ELITE_EEPROM_ENABLE.get_eq_take eeprom h4]
      exact u32_ne_of_ne_HeaderId _ (by simp; omega) hne
  · intro n
    unfold ELITE_EEPROM_ENABLE.Load
    rw [if_pos]
    · exact ⟨rfl, rfl⟩
    · unfold ELITE_EEPROM_ENABLE.EEPROM.get
      simp only [ELITE_EEPROM_ENABLE.read_replicate_zero]
      decide

/-- An erased-to-zero chip and an all-zero EEPROM of 64 cells: `NoData`, record
untouched. -/
theorem Load_blank_medium_witness :
    ((ELITE_FLASH_ENABLE.Load 16 ramFlash ⟨9, List.replicate 16 1, 1⟩ (fun _ => 0)).code
        = Error_NoData ∧
      (ELITE_FLASH_ENABLE.Load 16 ramFlash ⟨9, List.replicate 16 1, 1⟩
        (fun _ => 0)).preferences = ⟨9, List.replicate 16 1, 1⟩) ∧
      ((ELITE_EEPROM_ENABLE.Load 16 16 ⟨9, List.replicate 16 1, 1⟩ (List.replicate 64 0)).code
        = Error_NoData ∧
      (ELITE_EEPROM_ENABLE.Load 16 16 ⟨9, List.replicate 16 1, 1⟩
        (List.replicate 64 0)).preferences = ⟨9, List.replicate 16 1, 1⟩) :=
  ⟨(Load_blank_medium 16 16 ⟨9, List.replicate 16 1, 1⟩).2.1 _ ramFlash (fun m => m)
      (fun _ => 0) ramFlash_reads rfl (fun _ => rfl),
   (Load_blank_medium 16 16 ⟨9, List.replicate 16 1, 1⟩).2.2.1 (List.replicate 64 0)
      (by decide) (by decide)⟩

namespace ELITE_EEPROM_ENABLE

/-- C2: for every record `R` whose buffer has the `N = entrySize * profileCount` bytes
its count announces, and every prior content of an EEPROM with room for `5 + N` bytes,
`Save` returns `Success` and a `Load` that follows into a fresh record with the same
`profileCount` returns `Success` and restores `profile` and every byte of
`profileData`. -/
theorem eeprom_roundtrip (wordBits entrySize : Nat) (R Rfresh : Preferences_t)
    (eeprom : EEPROMClass)
    (hR : R.profileData.length = entrySize * R.profileCount)
    (hfresh : Rfresh.profileData.length = entrySize * Rfresh.profileCount)
    (hcount : Rfresh.profileCount = R.profileCount)
    (hw : 5 + entrySize * R.profileCount ≤ 2 ^ wordBits)
    (he : 5 + entrySize * R.profileCount ≤ eeprom.length) :
    (Save wordBits entrySize R eeprom).code = Error_Success ∧
      (Load wordBits entrySize Rfresh (Save wordBits entrySize R eeprom).eeprom).code
        = Error_Success ∧
      (Load wordBits entrySize Rfresh (Save wordBits entrySize R eeprom).eeprom).preferences.profile
        = R.profile ∧
      (Load wordBits entrySize Rfresh
        (Save wordBits entrySize R eeprom).eeprom).preferences.profileData = R.profileData ∧
      (Load wordBits entrySize Rfresh (Save wordBits entrySize R eeprom).eeprom).preferences
        = R := by
  rw [Save_eeprom_eq wordBits entrySize R eeprom hR hw he,
    Load_eeprom_image wordBits entrySize Rfresh R.profile R.profileData _ hfresh
      (by rw [hR, hcount]) (by rw [hcount]; exact hw), hcount]
  exact ⟨rfl, rfl, rfl, rfl, rfl⟩

/-- A round trip on an EEPROM of 12 cells with arbitrary prior content, 16-bit words. -/
theorem eeprom_roundtrip_witness :
    (Save 16 2 ⟨9, [1, 2, 3, 4], 2⟩ [7, 7, 7, 7, 7, 7, 7, 7, 7, 7, 7, 7]).code = Error_Success ∧
      (Load 16 2 ⟨0, [0, 0, 0, 0], 2⟩
        (Save 16 2 ⟨9, [1, 2, 3, 4], 2⟩ [7, 7, 7, 7, 7, 7, 7, 7, 7, 7, 7, 7]).eeprom).preferences
        = ⟨9, [1, 2, 3, 4], 2⟩ :=
  have h := eeprom_roundtrip 16 2 ⟨9, [1, 2, 3, 4], 2⟩ ⟨0, [0, 0, 0, 0], 2⟩
    [7, 7, 7, 7, 7, 7, 7, 7, 7, 7, 7, 7] rfl rfl rfl (by decide) (by decide)
  ⟨h.1, h.2.2.2.2⟩

end ELITE_EEPROM_ENABLE

/-! ## Table bounds -/

/-- The negation of a code, wrapped, stays in the range of the machine `int`. -/
theorem wrapInt_range (w : Nat) (x : Int) (hw : 1 ≤ w) :
    -(2 ^ (w - 1)) ≤ wrapInt w x ∧ wrapInt w x < 2 ^ (w - 1) := by
  have hs := two_pow_split w hw
  have hp : (0 : Int) < 2 ^ (w - 1) := by positivity
  have h0 := Int.emod_nonneg (x + 2 ^ (w - 1)) (show (2 : Int) ^ w ≠ 0 by omega)
  have h1 := Int.emod_lt_of_pos (x + 2 ^ (w - 1)) (show (0 : Int) < 2 ^ w by omega)
  unfold wrapInt
  constructor <;> omega

/-- A negative machine `int` converted to unsigned lands in the upper half. -/
theorem toUnsigned_of_negative (w : Nat) (x : Int) (hw : 1 ≤ w) (h0 : -(2 ^ (w - 1)) ≤ x)
    (h1 : x < 0) : (2 ^ (w - 1) : Int) ≤ toUnsigned w x := by
  have hs := two_pow_split w hw
  unfold toUnsigned
  rw [← Int.add_emod_self, Int.emod_eq_of_lt (by omega) (by omega), Int.toNat_of_nonneg (by omega)]
  omega

/-- C11: for every value of the `int` argument, whenever `ErrorCodeToString` looks up
the table the index it uses lies in `[0, 6)`, the bounds of `ErrorText`; the most
negative `int`, whose negation wraps back to itself, compares as an unsigned value
of at least 6 and is never looked up. -/
theorem lookupIndex_in_table (intBits : Nat) (error i : Int) (hw : 16 ≤ intBits)
    (hi : lookupIndex intBits error = some i) :
    (0 ≤ i ∧ i < 6 ∧ i.toNat < ErrorText.length) ∧
      normalizedError intBits (-(2 ^ (intBits - 1))) = -(2 ^ (intBits - 1)) ∧
      6 ≤ toUnsigned intBits (normalizedError intBits (-(2 ^ (intBits - 1)))) ∧
      lookupIndex intBits (-(2 ^ (intBits - 1))) = none := by
  have hp := two_pow_pred_ge intBits hw
  have hs := two_pow_split intBits (by omega)
  have hl : ErrorText.length = 6 := rfl
  have hmin := normalizedError_of_min intBits (by omega)
  have hbig : 6 ≤ toUnsigned intBits (normalizedError intBits (-(2 ^ (intBits - 1)))) := by
    rw [hmin, toUnsigned_of_min intBits (by omega)]
    omega
  refine ⟨?_, hmin, hbig, ?_⟩
  · unfold lookupIndex at hi
    split_ifs at hi with hlt
    rw [hl] at hlt
    have hi2 : normalizedError intBits error = i := Option.some.inj hi
    rw [hi2] at hlt
    have hrange : -(2 ^ (intBits - 1)) ≤ i ∧ i < 2 ^ (intBits - 1) := by
      rw [← hi2]
      unfold normalizedError
      split_ifs
      · constructor <;> omega
      · exact wrapInt_range intBits _ (by omega)
    by_cases hneg : i < 0
    · have := toUnsigned_of_negative intBits i (by omega) hrange.1 hneg
      omega
    · rw [toUnsigned_of_nonneg intBits i (by omega) (by omega)] at hlt
      omega
  · unfold lookupIndex
    rw [if_neg (by rw [hl]; omega)]

/-- The lookups of the codes -5 and 0 on a 32-bit `int` use the indices 5 and 0. -/
theorem lookupIndex_in_table_witness :
    lookupIndex 32 (-5) = some 5 ∧ ((0 : Int) ≤ 5 ∧ (5 : Int) < 6 ∧ (5 : Int).toNat < ErrorText.length) ∧
      lookupIndex 32 (-2147483648) = none :=
  ⟨by decide, (lookupIndex_in_table 32 (-5) 5 (by decide) (by decide)).1,
    (lookupIndex_in_table 32 (-5) 5 (by decide) (by decide)).2.2.2⟩

/-- C18: every non-negative code is answered with the text "Success", whatever the
width of `int`. -/
theorem ErrorCodeToString_nonneg (intBits : Nat) (error : Int) (h : 0 ≤ error) :
    ErrorCodeToString intBits error = "Success" := by
  have hn : normalizedError intBits error = 0 := by
    unfold normalizedError
    rw [if_pos h]
  unfold ErrorCodeToString lookupIndex
  rw [hn]
  have hu : toUnsigned intBits 0 = 0 := by simp [toUnsigned]
  rw [hu, if_pos (by decide)]
  rfl

/-- The codes 0, 1 and 1000 on a 32-bit `int`. -/
theorem ErrorCodeToString_nonneg_witness :
    ErrorCodeToString 32 0 = "Success" ∧ ErrorCodeToString 32 1 = "Success" ∧
      ErrorCodeToString 32 1000 = "Success" :=
  ⟨ErrorCodeToString_nonneg 32 0 (by decide), ErrorCodeToString_nonneg 32 1 (by decide),
    ErrorCodeToString_nonneg 32 1000 (by decide)⟩

/-- C12: in the build without storage, `Load` and `Save` each return `NoStorage` and
hand back the record with `profile`, `profileData` and count as they were. -/
theorem NoStorage_untouched (preferences : Preferences_t) :
    (NoStorage.Load preferences).1 = Error_NoStorage ∧
      (NoStorage.Load preferences).2 = preferences ∧
      (NoStorage.Save preferences).1 = Error_NoStorage ∧
      (NoStorage.Save preferences).2 = preferences ∧
      Error_NoStorage = -1 :=
  ⟨rfl, rfl, rfl, rfl, rfl⟩

/-! ## Frames -/

namespace ELITE_EEPROM_ENABLE

theorem saveLoop_length (wordBits bound : Nat) (p : List Byte) :
    ∀ (fuel i : Nat) (e : EEPROMClass), (saveLoop wordBits bound p fuel i e).length = e.length := by
  intro fuel
  induction fuel with
  | zero => intro i e; rfl
  | succ fuel ih =>
    intro i e
    rw [saveLoop]
    split_ifs
    · rw [ih, EEPROM.write, List.length_set]
    · rfl

/-- The write loop leaves the cells behind its range alone, also when the counter
arithmetic wraps. -/
theorem saveLoop_cell_behind (wordBits bound : Nat) (p : List Byte) (j : Nat)
    (hj : 5 + bound ≤ j) :
    ∀ (fuel i : Nat) (e : EEPROMClass), (saveLoop wordBits bound p fuel i e)[j]? = e[j]? := by
  intro fuel
  induction fuel with
  | zero => intro i e; rfl
  | succ fuel ih =>
    intro i e
    rw [saveLoop]
    split_ifs with hlt
    · have hmod : (5 + i) % 2 ^ wordBits ≤ 5 + i := Nat.mod_le _ _
      rw [ih, EEPROM.write, List.getElem?_set_ne (by omega)]
    · rfl

theorem put_length (t : List Byte) :
    ∀ (idx : Nat) (e : EEPROMClass), (EEPROM.put e idx t).length = e.length := by
  induction t with
  | nil => intro idx e; rfl
  | cons b rest ih => intro idx e; rw [EEPROM.put, ih, EEPROM.write, List.length_set]

theorem put_cell_behind (t : List Byte) (j : Nat) :
    ∀ (idx : Nat) (e : EEPROMClass), idx + t.length ≤ j → (EEPROM.put e idx t)[j]? = e[j]? := by
  induction t with
  | nil => intro idx e _; rfl
  | cons b rest ih =>
    intro idx e h
    simp only [List.length_cons] at h
    rw [EEPROM.put, ih (idx + 1) _ (by omega), EEPROM.write, List.getElem?_set_ne (by omega)]

/-- C19: the EEPROM backend never reports an I/O fault: whatever the EEPROM holds and
whatever the record, `Save` returns `Success`, and `Load` returns `NoData` exactly on
a header mismatch and `Success` otherwise, so never `ReadError`, `WriteError`,
`EraseFailed` or `NoStorage`. -/
theorem eeprom_no_fault (wordBits entrySize : Nat) (preferences : Preferences_t)
    (eeprom : EEPROMClass) :
    (Save wordBits entrySize preferences eeprom).code = Error_Success ∧
      ((Load wordBits entrySize preferences eeprom).code = Error_NoData ∨
        (Load wordBits entrySize preferences eeprom).code = Error_Success) ∧
      ((Load wordBits entrySize preferences eeprom).code = Error_NoData ↔
        EEPROM.get eeprom 0 ≠ u32OfBytes HeaderId) ∧
      (Load wordBits entrySize preferences eeprom).code ≠ Error_Read ∧
      (Load wordBits entrySize preferences eeprom).code ≠ Error_Write ∧
      (Load wordBits entrySize preferences eeprom).code ≠ Error_Erase ∧
      (Load wordBits entrySize preferences eeprom).code ≠ Error_NoStorage := by
  have d1 : Error_NoData ≠ Error_Read := by decide
  have d2 : Error_NoData ≠ Error_Write := by decide
  have d3 : Error_NoData ≠ Error_Erase := by decide
  have d4 : Error_NoData ≠ Error_NoStorage := by decide
  have s0 : Error_Success ≠ Error_NoData := by decide
  have s1 : Error_Success ≠ Error_Read := by decide
  have s2 : Error_Success ≠ Error_Write := by decide
  have s3 : Error_Success ≠ Error_Erase := by decide
  have s4 : Error_Success ≠ Error_NoStorage := by decide
  refine ⟨rfl, ?_⟩
  unfold Load
  dsimp only
  split_ifs with h
  · exact ⟨Or.inl rfl, ⟨fun _ => h, fun _ => rfl⟩, d1, d2, d3, d4⟩
  · exact ⟨Or.inr rfl, ⟨fun hc => absurd hc s0, fun hc => absurd hc h⟩, s1, s2, s3, s4⟩

end ELITE_EEPROM_ENABLE

/-- C20: the EEPROM `Save` leaves every cell at offset `5 + N` or higher, with
`N = entrySize * profileCount`, and the size of the array as they were, whatever the
record and the prior content; and neither the EEPROM `Save` nor the flash `Save`, on
any device, changes the record (`profile`, `profileData`, `profileCount`). -/
theorem Save_frame (wordBits entrySize : Nat) (preferences : Preferences_t)
    (eeprom : ELITE_EEPROM_ENABLE.EEPROMClass) (j : Nat)
    (hj : 5 + entrySize * preferences.profileCount ≤ j) :
    (ELITE_EEPROM_ENABLE.Save wordBits entrySize preferences eeprom).eeprom[j]? = eeprom[j]? ∧
      ELITE_EEPROM_ENABLE.EEPROM.read
          (ELITE_EEPROM_ENABLE.Save wordBits entrySize preferences eeprom).eeprom j
        = ELITE_EEPROM_ENABLE.EEPROM.read eeprom j ∧
      (ELITE_EEPROM_ENABLE.Save wordBits entrySize preferences eeprom).eeprom.length
        = eeprom.length ∧
      (ELITE_EEPROM_ENABLE.Save wordBits entrySize preferences eeprom).preferences
        = preferences ∧
      (∀ (σ : Type) (flash : Adafruit_SPIFlashBase σ) (dev : σ),
        (ELITE_FLASH_ENABLE.Save entrySize flash preferences dev).preferences = preferences) := by
  have hb : ELITE_EEPROM_ENABLE.loopBound wordBits entrySize preferences
      ≤ entrySize * preferences.profileCount := Nat.mod_le _ _
  have h4 : HeaderId.length = 4 := rfl
  have hget : (ELITE_EEPROM_ENABLE.Save wordBits entrySize preferences eeprom).eeprom[j]?
      = eeprom[j]? := by
    unfold ELITE_EEPROM_ENABLE.Save
    dsimp only
    rw [ELITE_EEPROM_ENABLE.saveLoop_cell_behind _ _ _ j (by omega),
      ELITE_EEPROM_ENABLE.EEPROM.write, List.getElem?_set_ne (by omega),
      ELITE_EEPROM_ENABLE.put_cell_behind _ j 0 _ (by omega)]
  refine ⟨hget, ?_, ?_, rfl, ?_⟩
  · unfold ELITE_EEPROM_ENABLE.EEPROM.read
    rw [List.getD_eq_getElem?_getD, List.getD_eq_getElem?_getD, hget]
  · unfold ELITE_EEPROM_ENABLE.Save
    dsimp only
    rw [ELITE_EEPROM_ENABLE.saveLoop_length, ELITE_EEPROM_ENABLE.EEPROM.write, List.length_set,
      ELITE_EEPROM_ENABLE.put_length]
  · intro σ flash dev
    unfold ELITE_FLASH_ENABLE.Save
    dsimp only
    split_ifs <;> rfl

/-- A record of 4 data bytes saved to an EEPROM of 12 cells: the cell at offset 9
keeps its content. -/
theorem Save_frame_witness :
    5 + 2 * 2 ≤ 9 ∧
      (ELITE_EEPROM_ENABLE.Save 16 2 ⟨9, [1, 2, 3, 4], 2⟩
        [7, 7, 7, 7, 7, 7, 7, 7, 7, 8, 7, 7]).eeprom[9]? = some 8 :=
  ⟨by decide, (Save_frame 16 2 ⟨9, [1, 2, 3, 4], 2⟩ [7, 7, 7, 7, 7, 7, 7, 7, 7, 8, 7, 7] 9
    (by decide)).1⟩

/-- C13: `Load` is read-only on the medium.  Whatever the device does, every call of
the flash `Load` is a `readBuffer`, none a `writeBuffer` or an `eraseSector`, so on
every device whose reads leave the medium alone the medium after `Load` is the medium
before it, whatever code `Load` returns; the EEPROM `Load` hands the EEPROM back
unchanged. -/
theorem Load_read_only (wordBits entrySize : Nat) (preferences : Preferences_t) :
    (∀ (σ : Type) (flash : Adafruit_SPIFlashBase σ) (dev : σ),
        (ELITE_FLASH_ENABLE.Load entrySize flash preferences dev).calls.filter Call.isWrite = [] ∧
        (ELITE_FLASH_ENABLE.Load entrySize flash preferences dev).calls.filter Call.isErase = [] ∧
        (∀ c ∈ (ELITE_FLASH_ENABLE.Load entrySize flash preferences dev).calls,
          c.isRead = true) ∧
        (∀ content : σ → Nat → Byte,
          (∀ d addr len, content (flash.readBuffer d addr len).1 = content d) →
          content (ELITE_FLASH_ENABLE.Load entrySize flash preferences dev).dev = content dev)) ∧
      (∀ eeprom : ELITE_EEPROM_ENABLE.EEPROMClass,
        (ELITE_EEPROM_ENABLE.Load wordBits entrySize preferences eeprom).eeprom = eeprom) := by
  constructor
  · intro σ flash dev
    unfold ELITE_FLASH_ENABLE.Load
    dsimp only
    refine ⟨?_, ?_, ?_, ?_⟩
    · split_ifs <;> simp [Call.isWrite]
    · split_ifs <;> simp [Call.isErase]
    · split_ifs <;> simp [Call.isRead]
    · intro content h
      split_ifs <;> simp only [h]
  · intro eeprom
    unfold ELITE_EEPROM_ENABLE.Load
    dsimp only
    split_ifs <;> rfl

/-- A successful `Load` and a `Load` that finds no data on the ideal chip: the medium
is the one `Load` was given. -/
theorem Load_read_only_witness :
    (ELITE_FLASH_ENABLE.Load 16 ramFlash ⟨9, List.replicate 16 1, 1⟩ scenarioMedium).dev
        = scenarioMedium ∧
      (ELITE_FLASH_ENABLE.Load 16 ramFlash ⟨9, List.replicate 16 1, 1⟩ (fun _ => 0)).dev
        = (fun _ => 0) :=
  ⟨((Load_read_only 16 16 ⟨9, List.replicate 16 1, 1⟩).1 _ ramFlash scenarioMedium).2.2.2
      (fun m => m) (fun _ _ _ => rfl),
   ((Load_read_only 16 16 ⟨9, List.replicate 16 1, 1⟩).1 _ ramFlash (fun _ => 0)).2.2.2
      (fun m => m) (fun _ _ _ => rfl)⟩

/-! ## Spans of an image -/

theorem span_append (m : Nat → Byte) (addr x y : Nat) :
    span m addr (x + y) = span m addr x ++ span m (addr + x) y := by
  apply List.ext_getElem (by simp)
  intro i h1 h2
  rw [span_getElem]
  by_cases hi : i < x
  · rw [List.getElem_append_left (by simpa using hi), span_getElem]
  · rw [List.getElem_append_right (by simpa using hi), span_getElem]
    simp only [span_length]
    congr 1
    omega

/-- Reading back fewer bytes than were stored yields the first ones. -/
theorem span_overlay_take (m : Nat → Byte) (addr : Nat) (data : List Byte) (len : Nat)
    (h : len ≤ data.length) : span (overlay m addr data) addr len = data.take len := by
  apply List.ext_getElem (by simp [h])
  intro i h1 h2
  have hi : i < len := by simpa using h1
  rw [span_getElem, overlay_inside m addr data i (by omega), List.getElem_take]

theorem smallFlash_reads : ReadsMedium smallFlash (fun s i => s.mem.getD i 0) := by
  intro dev addr len
  refine ⟨?_, rfl⟩
  show (dev.mem.drop addr).take len
    = (span (fun i => dev.mem.getD i 0) addr len).take ((dev.mem.drop addr).take len).length
  apply List.ext_getElem (by simp)
  intro i h1 h2
  simp only [List.length_take, List.length_drop] at h1
  rw [List.getElem_take, List.getElem_take, span_getElem, List.getElem_drop,
    List.getD_eq_getElem _ _ (by omega)]

namespace ELITE_FLASH_ENABLE

end ELITE_FLASH_ENABLE

/-! ## Undetected damage -/

namespace ELITE_FLASH_ENABLE

/-- C16: on a medium with a valid header, when the 4-byte and the 1-byte read complete
and the `profileData` read is short, the flash `Load` returns `ReadError` with
`profile` already replaced by medium byte 4 and the bytes the short read delivered
already in `profileData`: the record is not put back to what it was. -/
theorem Load_partial_overwrite {σ : Type} (entrySize : Nat) (flash : Adafruit_SPIFlashBase σ)
    (content : σ → Nat → Byte) (preferences : Preferences_t) (dev : σ)
    (hmed : ReadsMedium flash content)
    (hhdr : span (content dev) 0 4 = HeaderId)
    (h1 : (flash.readBuffer dev 0 4).2.length = 4)
    (h2 : (flash.readBuffer (flash.readBuffer dev 0 4).1 4 1).2.length = 1)
    (h3 : (flash.readBuffer (flash.readBuffer (flash.readBuffer dev 0 4).1 4 1).1 5
        ((entrySize * preferences.profileCount) % 2 ^ 32)).2.length
      < (entrySize * preferences.profileCount) % 2 ^ 32) :
    (Load entrySize flash preferences dev).code = Error_Read ∧
      (Load entrySize flash preferences dev).preferences.profile = content dev 4 ∧
      (content dev 4 ≠ preferences.profile →
        (Load entrySize flash preferences dev).preferences.profile ≠ preferences.profile) ∧
      (Load entrySize flash preferences dev).preferences.profileData
        = (flash.readBuffer (flash.readBuffer (flash.readBuffer dev 0 4).1 4 1).1 5
            ((entrySize * preferences.profileCount) % 2 ^ 32)).2
          ++ preferences.profileData.drop
            (flash.readBuffer (flash.readBuffer (flash.readBuffer dev 0 4).1 4 1).1 5
              ((entrySize * preferences.profileCount) % 2 ^ 32)).2.length := by
  obtain ⟨e1, c1⟩ := hmed dev 0 4
  rw [h1, span_take_self, hhdr] at e1
  obtain ⟨e2, c2⟩ := hmed (flash.readBuffer dev 0 4).1 4 1
  rw [h2, span_take_self, c1, span_one] at e2
  have hprofile : (Load entrySize flash preferences dev).preferences.profile = content dev 4 := by
    unfold Load
    dsimp only
    rw [if_neg (by rw [h1]; simp), if_neg (by rw [e1]; simp), if_neg (by rw [h2]; simp), e2]
    rfl
  refine ⟨?_, hprofile, fun hne => by rw [hprofile]; exact hne, ?_⟩
  · unfold Load
    dsimp only
    rw [if_neg (by rw [h1]; simp), if_neg (by rw [e1]; simp), if_neg (by rw [h2]; simp),
      if_neg (Nat.ne_of_lt h3)]
  · unfold Load
    dsimp only
    rw [if_neg (by rw [h1]; simp), if_neg (by rw [e1]; simp), if_neg (by rw [h2]; simp)]
    show storeBytes _ preferences.profileData _ = _
    unfold storeBytes
    rw [List.take_of_length_le (Nat.le_of_lt h3)]

/-- A chip of eight bytes with a valid header and `profile = 3`: the `profileData`
read delivers 3 of 4 bytes, `Load` returns `ReadError`, and the record that held
`profile = 9` now holds 3 and three new data bytes. -/
theorem Load_partial_overwrite_witness :
    (Load 4 smallFlash ⟨9, [1, 2, 3, 4], 1⟩ ⟨[80, 114, 111, 119, 3, 0, 0, 0], true⟩).code
        = Error_Read ∧
      (Load 4 smallFlash ⟨9, [1, 2, 3, 4], 1⟩
        ⟨[80, 114, 111, 119, 3, 0, 0, 0], true⟩).preferences.profile = 3 ∧
      (Load 4 smallFlash ⟨9, [1, 2, 3, 4], 1⟩
        ⟨[80, 114, 111, 119, 3, 0, 0, 0], true⟩).preferences.profileData = [0, 0, 0, 4] :=
  have h := Load_partial_overwrite 4 smallFlash (fun s i => s.mem.getD i 0)
    ⟨9, [1, 2, 3, 4], 1⟩ ⟨[80, 114, 111, 119, 3, 0, 0, 0], true⟩ smallFlash_reads
    (by decide) (by decide) (by decide) (by decide)
  ⟨h.1, h.2.1.trans (by decide), h.2.2.2.trans (by decide)⟩

end ELITE_FLASH_ENABLE

namespace ELITE_FLASH_ENABLE

/-- C15: a profile-count mismatch goes undetected.  On a faithful backend, an image
written by a successful `Save` with `profileCount = m` and read with any
`profileCount = n`, different from `m` or not, makes `Load` return `Success`: the
image carries no count, the reader keeps its own, takes
`profile` from the image, and for `n < m` its `profileData` is only the first
`entrySize * n` bytes of what was saved (for `n > m` it is the saved bytes followed by
what the erase left behind them). -/
theorem count_mismatch_undetected {σ : Type} (entrySize : Nat)
    (flash : Adafruit_SPIFlashBase σ) (content : σ → Nat → Byte) (R Rreader : Preferences_t)
    (dev : σ)
    (hf : Faithful flash content)
    (hR : WellFormed entrySize R)
    (hreader : WellFormed entrySize Rreader) :
    (Save entrySize flash R dev).code = Error_Success ∧
      (Load entrySize flash Rreader (Save entrySize flash R dev).dev).code = Error_Success ∧
      (Load entrySize flash Rreader (Save entrySize flash R dev).dev).preferences.profile
        = R.profile ∧
      (Load entrySize flash Rreader (Save entrySize flash R dev).dev).preferences.profileCount
        = Rreader.profileCount ∧
      (Load entrySize flash Rreader
          (Save entrySize flash R dev).dev).preferences.profileData.length
        = entrySize * Rreader.profileCount ∧
      (Rreader.profileCount < R.profileCount →
        (Load entrySize flash Rreader (Save entrySize flash R dev).dev).preferences.profileData
          = R.profileData.take (entrySize * Rreader.profileCount)) ∧
      (R.profileCount < Rreader.profileCount →
        (Load entrySize flash Rreader (Save entrySize flash R dev).dev).preferences.profileData
          = R.profileData
            ++ span (content (flash.eraseSector dev 0).1) (5 + entrySize * R.profileCount)
                (entrySize * Rreader.profileCount - entrySize * R.profileCount)) := by
  obtain ⟨hreads, hwrites, herase, hwfull, hrfull⟩ := hf
  obtain ⟨hs1, -, hs3⟩ := Save_of_medium entrySize flash content R dev hwrites hR (herase dev)
    (hwfull _ _ _) (hwfull _ _ _) (by rw [hwfull]; exact hR.1)
  obtain ⟨f1, f2, f3⟩ := image_fields (content (flash.eraseSector dev 0).1) R.profile
    R.profileData
  rw [← hs3] at f1 f2 f3
  obtain ⟨hl1, hl2, -⟩ := Load_of_medium entrySize flash content Rreader
    (Save entrySize flash R dev).dev hreads hreader f1 (hrfull _ _ _) (hrfull _ _ _)
    (hrfull _ _ _)
  refine ⟨hs1, hl1, by rw [hl2, f2], by rw [hl2], by rw [hl2]; simp, ?_, ?_⟩
  · intro hlt
    rw [hl2]
    show span _ 5 (entrySize * Rreader.profileCount) = _
    rw [hs3]
    exact span_overlay_take _ 5 R.profileData _
      (by rw [hR.1]; exact Nat.mul_le_mul_left _ (Nat.le_of_lt hlt))
  · intro hlt
    have hle : entrySize * R.profileCount ≤ entrySize * Rreader.profileCount :=
      Nat.mul_le_mul_left _ (Nat.le_of_lt hlt)
    rw [hl2]
    show span _ 5 (entrySize * Rreader.profileCount) = _
    rw [show entrySize * Rreader.profileCount = entrySize * R.profileCount
        + (entrySize * Rreader.profileCount - entrySize * R.profileCount) by omega,
      span_append, ← hR.1, f3, hs3, span_overlay_disjoint _ _ _ _ _ (by omega),
      span_overlay_disjoint _ _ _ _ _ (by simp),
      span_overlay_disjoint _ _ _ _ _ (by rw [HeaderId_bytes]; simp; omega)]
    simp

/-- Two entries of two bytes saved and one entry read back on the ideal chip: `Load`
returns `Success` with the first two of the four saved bytes. -/
theorem count_mismatch_undetected_witness :
    (Load 2 ramFlash ⟨0, [0, 0], 1⟩
        (Save 2 ramFlash ⟨9, [1, 2, 3, 4], 2⟩ (fun _ => 0)).dev).code = Error_Success ∧
      (Load 2 ramFlash ⟨0, [0, 0], 1⟩
        (Save 2 ramFlash ⟨9, [1, 2, 3, 4], 2⟩ (fun _ => 0)).dev).preferences.profileData
        = [1, 2] :=
  have h := count_mismatch_undetected 2 ramFlash (fun m => m) ⟨9, [1, 2, 3, 4], 2⟩
    ⟨0, [0, 0], 1⟩ (fun _ => 0) ramFlash_faithful (by decide) (by decide)
  ⟨h.2.1, h.2.2.2.2.2.1 (by decide)⟩

end ELITE_FLASH_ENABLE

/-! ## Programming erased cells -/

/-- Programming an erased cell stores the byte. -/
theorem andByte_erased (b : Byte) : andByte 255 b = b := by
  apply Fin.ext
  show 255 &&& b.val = b.val
  have h := Nat.and_pow_two_sub_one_eq_mod b.val 8
  rw [Nat.land_comm]
  rw [show (255 : Nat) = 2 ^ 8 - 1 from rfl, h]
  exact Nat.mod_eq_of_lt b.isLt

theorem norFlash_reads (sectorSize : Nat) : ReadsMedium (norFlash sectorSize) (fun m => m) := by
  intro dev addr len
  exact ⟨(List.take_of_length_le (Nat.le_refl _)).symm, rfl⟩

/-- Programming a record image over cells that are all erased stores the image. -/
theorem andOverlay_image (e : Nat → Byte) (profile : Byte) (data : List Byte) (limit : Nat)
    (he : ∀ i, i < limit → e i = 255) (hfit : 5 + data.length ≤ limit) :
    andOverlay (andOverlay (andOverlay e 0 HeaderId) 4 [profile]) 5 data
      = overlay (overlay (overlay e 0 HeaderId) 4 [profile]) 5 data := by
  funext i
  have h4 : HeaderId.length = 4 := rfl
  simp only [andOverlay, overlay, h4, List.length_singleton]
  by_cases hi : i < limit
  · have h255 := he i hi
    split_ifs <;> first
      | omega
      | rfl
      | (rw [h255, andByte_erased])
  · split_ifs <;> first
      | omega
      | rfl

namespace ELITE_FLASH_ENABLE

/-- C17: the erase makes the rewrite correct.  On a NOR flash chip, where a write only
clears bits and `eraseSector(0)` sets every byte of sector 0 to `0xFF`, for every
prior content of the medium and every record whose image of `5 + N` bytes fits in
sector 0, all calls of `Save` succeed, `Save` returns `Success` and leaves bytes
`[0, 5+N)` equal to header, `profile`, `profileData`; a `Load` that follows into a
fresh record with the same count returns the saved record. -/
theorem Save_on_norFlash (sectorSize entrySize : Nat) (R Rfresh : Preferences_t)
    (m : Nat → Byte)
    (hR : WellFormed entrySize R)
    (hfresh : WellFormed entrySize Rfresh)
    (hcount : Rfresh.profileCount = R.profileCount)
    (hfit : 5 + entrySize * R.profileCount ≤ sectorSize) :
    (Save entrySize (norFlash sectorSize) R m).code = Error_Success ∧
      (Save entrySize (norFlash sectorSize) R m).calls
        = [Call.eraseSector 0 true, Call.writeBuffer 0 4 4, Call.writeBuffer 4 1 1,
            Call.writeBuffer 5 (entrySize * R.profileCount) (entrySize * R.profileCount)] ∧
      span (Save entrySize (norFlash sectorSize) R m).dev 0 4 = HeaderId ∧
      (Save entrySize (norFlash sectorSize) R m).dev 4 = R.profile ∧
      span (Save entrySize (norFlash sectorSize) R m).dev 5 (entrySize * R.profileCount)
        = R.profileData ∧
      (Load entrySize (norFlash sectorSize) Rfresh
        (Save entrySize (norFlash sectorSize) R m).dev).code = Error_Success ∧
      (Load entrySize (norFlash sectorSize) Rfresh
        (Save entrySize (norFlash sectorSize) R m).dev).preferences = R := by
  obtain ⟨hlen, hlt⟩ := hR
  have hmod : (entrySize * R.profileCount) % 2 ^ 32 = entrySize * R.profileCount :=
    Nat.mod_eq_of_lt hlt
  have htake : R.profileData.take (entrySize * R.profileCount) = R.profileData :=
    List.take_of_length_le (by omega)
  have hsave : Save entrySize (norFlash sectorSize) R m
      = ⟨Error_Success, R,
          andOverlay (andOverlay (andOverlay ((norFlash sectorSize).eraseSector m 0).1 0
            HeaderId) 4 [R.profile]) 5 R.profileData,
          [Call.eraseSector 0 true, Call.writeBuffer 0 4 4, Call.writeBuffer 4 1 1,
            Call.writeBuffer 5 (entrySize * R.profileCount) (entrySize * R.profileCount)]⟩ := by
    unfold Save
    dsimp only
    rw [hmod, htake]
    have h4 : HeaderId.length = 4 := rfl
    simp [norFlash, h4, hlen]
  have herased : ∀ i, i < sectorSize → ((norFlash sectorSize).eraseSector m 0).1 i = 255 := by
    intro i hi
    show (if sectorSize * 0 ≤ i ∧ i < sectorSize * (0 + 1) then (255 : Byte) else m i) = 255
    rw [if_pos ⟨by omega, by omega⟩]
  have hdev : (Save entrySize (norFlash sectorSize) R m).dev
      = overlay (overlay (overlay ((norFlash sectorSize).eraseSector m 0).1 0 HeaderId) 4
          [R.profile]) 5 R.profileData := by
    rw [hsave]
    exact andOverlay_image _ R.profile R.profileData sectorSize herased (by omega)
  obtain ⟨f1, f2, f3⟩ := image_fields ((norFlash sectorSize).eraseSector m 0).1 R.profile
    R.profileData
  rw [← hdev, hlen] at f3
  rw [← hdev] at f1 f2
  obtain ⟨hl1, hl2, -⟩ := Load_of_medium entrySize (norFlash sectorSize) (fun x => x) Rfresh
    (Save entrySize (norFlash sectorSize) R m).dev (norFlash_reads sectorSize) hfresh f1
    (span_length _ _ _) (span_length _ _ _) (span_length _ _ _)
  refine ⟨by rw [hsave], by rw [hsave], f1, f2, f3, hl1, ?_⟩
  rw [hl2, hcount]
  show (⟨_, span _ 5 (entrySize * R.profileCount), _⟩ : Preferences_t) = R
  rw [f2, f3]

/-- A record rewritten over a medium that held all zeros, on a chip with sectors of
4096 bytes: the erase lets the image through and `Load` returns the record. -/
theorem Save_on_norFlash_witness :
    (Save 2 (norFlash 4096) ⟨9, [1, 2, 3, 4], 2⟩ (fun _ => 0)).code = Error_Success ∧
      span (Save 2 (norFlash 4096) ⟨9, [1, 2, 3, 4], 2⟩ (fun _ => 0)).dev 0 9
        = [80, 114, 111, 119, 9, 1, 2, 3, 4] ∧
      (Load 2 (norFlash 4096) ⟨0, [0, 0, 0, 0], 2⟩
        (Save 2 (norFlash 4096) ⟨9, [1, 2, 3, 4], 2⟩ (fun _ => 0)).dev).preferences
        = ⟨9, [1, 2, 3, 4], 2⟩ :=
  have h := Save_on_norFlash 4096 2 ⟨9, [1, 2, 3, 4], 2⟩ ⟨0, [0, 0, 0, 0], 2⟩ (fun _ => 0)
    (by decide) (by decide) rfl (by decide)
  ⟨h.1, by decide, h.2.2.2.2.2.2⟩

end ELITE_FLASH_ENABLE

/-! ## The layout of the image -/

theorem norFlash_erased (sectorSize : Nat) (m : Nat → Byte) (i : Nat) (hi : i < sectorSize) :
    ((norFlash sectorSize).eraseSector m 0).1 i = 255 := by
  show (if sectorSize * 0 ≤ i ∧ i < sectorSize * (0 + 1) then (255 : Byte) else m i) = 255
  rw [if_pos ⟨by omega, by omega⟩]

/-- Programming data over cells that are all erased stores the data. -/
theorem andOverlay_erased (m : Nat → Byte) (addr : Nat) (data : List Byte)
    (h : ∀ i, addr ≤ i → i < addr + data.length → m i = 255) :
    andOverlay m addr data = overlay m addr data := by
  funext i
  unfold andOverlay overlay
  split_ifs with hi
  · rw [h i hi.1 hi.2, andByte_erased]
  · rfl

/-- Programming leaves the cells outside the span it addresses alone. -/
theorem andOverlay_outside (m : Nat → Byte) (addr : Nat) (data : List Byte) (i : Nat)
    (h : i < addr ∨ addr + data.length ≤ i) : andOverlay m addr data i = m i := by
  unfold andOverlay
  rw [if_neg (by omega)]

namespace ELITE_FLASH_ENABLE

/-- C5, as stated, fails on a flash chip whose writes only clear bits when the image
reaches past the erased sector.  On a chip with sectors of 6 bytes that held zeros,
the erase succeeds, the three writes of `Save` report 4, 1 and 4 bytes, `Save`
returns `Success`, and bytes `[5, 9)` of the medium are 1, 0, 0, 0 where the
`profileData` is 1, 2, 3, 4. -/
theorem Save_layout_past_sector :
    (Save 2 (norFlash 6) ⟨9, [1, 2, 3, 4], 2⟩ (fun _ => 0)).calls
        = [Call.eraseSector 0 true, Call.writeBuffer 0 4 4, Call.writeBuffer 4 1 1,
            Call.writeBuffer 5 4 4] ∧
      (Save 2 (norFlash 6) ⟨9, [1, 2, 3, 4], 2⟩ (fun _ => 0)).code = Error_Success ∧
      span (Save 2 (norFlash 6) ⟨9, [1, 2, 3, 4], 2⟩ (fun _ => 0)).dev 5 4 = [1, 0, 0, 0] ∧
      span (Save 2 (norFlash 6) ⟨9, [1, 2, 3, 4], 2⟩ (fun _ => 0)).dev 5 (2 * 2)
        ≠ [1, 2, 3, 4] := by
  decide

/-- C5, amended: when the erase succeeds and each of the three writes of `Save`
transfers the full length and stores its data in the cells it addresses, changing no
other cell, `Save` returns `Success` and afterwards medium bytes `[0,4)` are
'P','r','o','w' in that order, byte 4 is `profile`, and bytes `[5, 5+N)` are the
`profileData` bytes in index order, with nothing between them.  The condition is on
these three writes only; a chip whose writes only clear bits meets it when the image
lies within the erased sector. -/
theorem Save_encodes_layout {σ : Type} (entrySize : Nat) (flash : Adafruit_SPIFlashBase σ)
    (content : σ → Nat → Byte) (preferences : Preferences_t) (dev : σ)
    (hwf : WellFormed entrySize preferences)
    (he : (flash.eraseSector dev 0).2 = true)
    (h1 : (flash.writeBuffer (flash.eraseSector dev 0).1 0 HeaderId).2 = 4)
    (s1 : content (flash.writeBuffer (flash.eraseSector dev 0).1 0 HeaderId).1
      = overlay (content (flash.eraseSector dev 0).1) 0 HeaderId)
    (h2 : (flash.writeBuffer (flash.writeBuffer (flash.eraseSector dev 0).1 0 HeaderId).1 4
      [preferences.profile]).2 = 1)
    (s2 : content (flash.writeBuffer (flash.writeBuffer (flash.eraseSector dev 0).1 0
        HeaderId).1 4 [preferences.profile]).1
      = overlay (content (flash.writeBuffer (flash.eraseSector dev 0).1 0 HeaderId).1) 4
          [preferences.profile])
    (h3 : (flash.writeBuffer (flash.writeBuffer (flash.writeBuffer (flash.eraseSector dev 0).1 0
      HeaderId).1 4 [preferences.profile]).1 5 preferences.profileData).2
        = entrySize * preferences.profileCount)
    (s3 : content (flash.writeBuffer (flash.writeBuffer (flash.writeBuffer
        (flash.eraseSector dev 0).1 0 HeaderId).1 4 [preferences.profile]).1 5
        preferences.profileData).1
      = overlay (content (flash.writeBuffer (flash.writeBuffer (flash.eraseSector dev 0).1 0
          HeaderId).1 4 [preferences.profile]).1) 5 preferences.profileData) :
    (Save entrySize flash preferences dev).code = Error_Success ∧
      span (content (Save entrySize flash preferences dev).dev) 0 4 = [80, 114, 111, 119] ∧
      [80, 114, 111, 119] = ['P', 'r', 'o', 'w'].map (fun c => (Fin.ofNat c.toNat : Byte)) ∧
      content (Save entrySize flash preferences dev).dev 4 = preferences.profile ∧
      span (content (Save entrySize flash preferences dev).dev) 5
        (entrySize * preferences.profileCount) = preferences.profileData ∧
      (∀ i, i < entrySize * preferences.profileCount →
        some (content (Save entrySize flash preferences dev).dev (5 + i))
          = preferences.profileData[i]?) := by
  obtain ⟨hlen, hfit⟩ := hwf
  have hmod : (entrySize * preferences.profileCount) % 2 ^ 32
      = entrySize * preferences.profileCount := Nat.mod_eq_of_lt hfit
  have htake : preferences.profileData.take (entrySize * preferences.profileCount)
      = preferences.profileData := List.take_of_length_le (by omega)
  have hc : (Save entrySize flash preferences dev).code = Error_Success := by
    unfold Save
    dsimp only
    rw [if_neg (by rw [he]; simp), if_neg (by rw [h1]; simp), if_neg (by rw [h2]; simp), hmod,
      htake, if_pos h3]
  have hm : content (Save entrySize flash preferences dev).dev
      = overlay (overlay (overlay (content (flash.eraseSector dev 0).1) 0 HeaderId) 4
          [preferences.profile]) 5 preferences.profileData := by
    rw [← s1, ← s2, ← s3]
    unfold Save
    dsimp only
    rw [if_neg (by rw [he]; simp), if_neg (by rw [h1]; simp), if_neg (by rw [h2]; simp), hmod,
      htake]
  obtain ⟨f1, f2, f3⟩ := image_fields (content (flash.eraseSector dev 0).1)
    preferences.profile preferences.profileData
  rw [← hm, HeaderId_bytes] at f1
  rw [← hm] at f2 f3
  rw [hlen] at f3
  refine ⟨hc, f1, by decide, f2, f3, ?_⟩
  intro i hi
  rw [← f3]
  simp [span, hi]

/-- A record of two entries of two bytes saved over a medium that held zeros, on a
chip whose writes only clear bits and whose sectors have 4096 bytes: the three writes
land in erased cells, so they store their data, and the medium holds the image. -/
theorem Save_encodes_layout_witness :
    (Save 2 (norFlash 4096) ⟨9, [1, 2, 3, 4], 2⟩ (fun _ => 0)).code = Error_Success ∧
      span (Save 2 (norFlash 4096) ⟨9, [1, 2, 3, 4], 2⟩ (fun _ => 0)).dev 0 4
        = [80, 114, 111, 119] ∧
      (Save 2 (norFlash 4096) ⟨9, [1, 2, 3, 4], 2⟩ (fun _ => 0)).dev 4 = 9 ∧
      span (Save 2 (norFlash 4096) ⟨9, [1, 2, 3, 4], 2⟩ (fun _ => 0)).dev 5 (2 * 2)
        = [1, 2, 3, 4] :=
  have h := Save_encodes_layout 2 (norFlash 4096) (fun m => m) ⟨9, [1, 2, 3, 4], 2⟩
    (fun _ => 0) (by decide) rfl rfl
    (andOverlay_erased _ 0 HeaderId (fun i _ hi =>
      norFlash_erased 4096 _ i (Nat.lt_trans hi (by decide))))
    rfl
    (andOverlay_erased _ 4 [9] (fun i h4 hi =>
      (andOverlay_outside _ 0 HeaderId i (Or.inr h4)).trans
        (norFlash_erased 4096 _ i (Nat.lt_trans hi (by decide)))))
    rfl
    (andOverlay_erased _ 5 [1, 2, 3, 4] (fun i h5 hi =>
      (andOverlay_outside _ 4 [9] i (Or.inr h5)).trans
        ((andOverlay_outside _ 0 HeaderId i (Or.inr (Nat.le_of_lt h5))).trans
          (norFlash_erased 4096 _ i (Nat.lt_trans hi (by decide))))))
  ⟨h.1, h.2.1, h.2.2.2.1, h.2.2.2.2.1⟩

end ELITE_FLASH_ENABLE

end ElitePreferences
